import Mathlib

/-!
# Verification of the litetracker-mcp poll-sync-cache engine

Shallow embedding of the Go sources of `MelianLabs/litetracker-mcp`:

* `internal/db/db.go` — local cache store (`UpsertStory`, `UpsertComment`,
  `MarkStoryMentionsMe`, `ParseApiDate`, `CreateSnapshot`);
* `internal/sync/sync.go` — sync engine (`syncProject`, `mentionsUser`, `isMyStory`);
* `main.go` — poll loop (`poll`, `containsIgnoreCase`, poll state);
* `internal/api/webclient.go` — session auth client (`ensureLoggedIn`,
  `WebPostComment`, `WebAddLabel`, `WebAddOwner`, `addOwner`).

Strings are modelled as Lean `String`/`List Char`; Go's byte-level ASCII case
folding is modelled character-wise (identical on ASCII data).  Network calls
and SQL effects are modelled by explicit inputs and association-list tables.
-/

namespace LiteTracker

/-! ## String helpers

`containsIgnoreCase` (main.go): byte-wise scan that folds `'A'..'Z'` to lower
case by adding 32 before comparing.  `strContains` models the Go standard
library's `strings.Contains`.  Both are instances of a scan parameterised by
the character-folding function. -/

/-- The per-character fold performed inside `containsIgnoreCase`:
`if a >= 'A' && a <= 'Z' { a += 32 }`. -/
def foldCaseChar (c : Char) : Char :=
  if 'A' ≤ c ∧ c ≤ 'Z' then Char.ofNat (c.toNat + 32) else c

/-- The inner `j` loop of `containsIgnoreCase`: does `sub`, folded by `f`,
match at the start of `s` (folded by `f`)? -/
def matchAtBy (f : Char → Char) : List Char → List Char → Bool
  | _, [] => true
  | [], _ :: _ => false
  | a :: as, b :: bs => (f a = f b) && matchAtBy f as bs

/-- The outer `i` loop of `containsIgnoreCase`: try to match `sub` at every
position of `s`. -/
def scanBy (f : Char → Char) : List Char → List Char → Bool
  | [], sub => matchAtBy f [] sub
  | a :: t, sub => matchAtBy f (a :: t) sub || scanBy f t sub

/-- `containsIgnoreCase` from `main.go`: ASCII-case-insensitive substring
test (returns `true` for the empty needle). -/
def containsIgnoreCase (s substr : String) : Bool :=
  scanBy foldCaseChar s.toList substr.toList

/-- Model of Go's `strings.Contains s sub`. -/
def strContains (s sub : String) : Bool :=
  scanBy id s.toList sub.toList

/-- Model of Go's `strings.ToLower` (ASCII range). -/
def toLowerStr (s : String) : String :=
  (s.toList.map foldCaseChar).asString

/-- Specification-level predicate: `needle` occurs in `hay` as a
case-insensitive substring (both sides case-folded). -/
def ciSubstring (needle hay : String) : Prop :=
  (needle.toList.map foldCaseChar) <:+: (hay.toList.map foldCaseChar)

theorem matchAtBy_iff (f : Char → Char) :
    ∀ s sub, matchAtBy f s sub = true ↔ (sub.map f) <+: (s.map f) := by
  intro s sub
  induction sub generalizing s with
  | nil =>
    simp only [matchAtBy, List.map_nil]
    exact ⟨fun _ => ⟨s.map f, rfl⟩, fun _ => trivial⟩
  | cons b bs ih =>
    cases s with
    | nil =>
      simp only [matchAtBy, List.map_nil, List.map_cons]
      constructor
      · intro h; cases h
      · rintro ⟨t, ht⟩; simp at ht
    | cons a as =>
      simp only [matchAtBy, List.map_cons, Bool.and_eq_true, decide_eq_true_eq]
      rw [ih]
      constructor
      · rintro ⟨h1, t, ht⟩
        exact ⟨t, by simp [h1, ht]⟩
      · rintro ⟨t, ht⟩
        simp only [List.cons_append, List.cons.injEq] at ht
        exact ⟨ht.1.symm, t, ht.2⟩

theorem scanBy_iff (f : Char → Char) :
    ∀ s sub, scanBy f s sub = true ↔ (sub.map f) <:+: (s.map f) := by
  intro s sub
  induction s with
  | nil =>
    simp only [scanBy, matchAtBy_iff, List.map_nil]
    constructor
    · rintro ⟨t, ht⟩
      exact ⟨[], t, ht⟩
    · rintro ⟨u, t, ht⟩
      obtain ⟨h1, h2⟩ := List.append_eq_nil.mp ht
      obtain ⟨hu, hsub⟩ := List.append_eq_nil.mp h1
      exact ⟨[], by simp [hsub]⟩
  | cons a t ih =>
    simp only [scanBy, Bool.or_eq_true, matchAtBy_iff, ih, List.map_cons]
    constructor
    · rintro (⟨u, hu⟩ | ⟨u, v, huv⟩)
      · exact ⟨[], u, by simpa using hu⟩
      · exact ⟨f a :: u, v, by simp [huv]⟩
    · rintro ⟨u, v, huv⟩
      cases u with
      | nil =>
        exact Or.inl ⟨v, by simpa using huv⟩
      | cons x u' =>
        simp only [List.cons_append, List.cons.injEq] at huv
        exact Or.inr ⟨u', v, huv.2⟩

theorem containsIgnoreCase_iff (s substr : String) :
    containsIgnoreCase s substr = true ↔ ciSubstring substr s :=
  scanBy_iff foldCaseChar s.toList substr.toList

theorem strContains_iff (s sub : String) :
    strContains s sub = true ↔ sub.toList <:+: s.toList := by
  simpa using scanBy_iff id s.toList sub.toList

instance (needle hay : String) : Decidable (ciSubstring needle hay) :=
  decidable_of_iff (containsIgnoreCase hay needle = true) (containsIgnoreCase_iff hay needle)

/-! ## `ParseApiDate` (db.go)

The Go function matches the anchored regular expression
`^(\d{1,2})\s+(\w{3})\s+(\d{4}),\s+(\d{1,2}):(\d{2})(AM|PM)$`, looks the month
up in a table, converts the 12-hour clock to 24-hour, and renders
`"%s-%s-%02s T%02d:%s:00.000Z"` followed by `ReplaceAll " T" "T"`.
The regex is embedded as a deterministic scanner: each quantified class here
is followed by a character from a disjoint class, so greedy matching with
backtracking coincides with maximal-munch scanning. -/

/-- Regex class `\d`. -/
def isDigitChar (c : Char) : Bool := '0' ≤ c && c ≤ '9'

/-- Regex class `\w`. -/
def isWordChar (c : Char) : Bool :=
  isDigitChar c || ('a' ≤ c && c ≤ 'z') || ('A' ≤ c && c ≤ 'Z') || c = '_'

/-- Regex class `\s` as implemented by Go's regexp package. -/
def isGoSpace (c : Char) : Bool :=
  c = ' ' || c = '\t' || c = '\n' || c = '\x0c' || c = '\r'

/-- Maximal-munch split: longest choice satisfying `p`, and the rest. -/
def spanP (p : Char → Bool) : List Char → List Char × List Char
  | [] => ([], [])
  | c :: cs =>
    if p c then
      let (a, b) := spanP p cs
      (c :: a, b)
    else ([], c :: cs)

/-- The capture groups of the `ParseApiDate` regex. -/
structure DateFields where
  day : List Char
  mon : List Char
  year : List Char
  hour : List Char
  minute : List Char
  pm : Bool
  deriving DecidableEq, Repr

/-- Deterministic embedding of the anchored regex match of `ParseApiDate`:
each capture group in order, with the guards of the quantifiers. -/
def parseFields (cs : List Char) : Option DateFields :=
  let (day, r1) := spanP isDigitChar cs
  if 1 ≤ day.length ∧ day.length ≤ 2 then
    let (sp1, r2) := spanP isGoSpace r1
    if ¬ sp1 = [] then
      let (mon, r3) := spanP isWordChar r2
      if mon.length = 3 then
        let (sp2, r4) := spanP isGoSpace r3
        if ¬ sp2 = [] then
          let (year, r5) := spanP isDigitChar r4
          if year.length = 4 then
            match r5 with
            | [] => none
            | cc :: r6 =>
              if cc = ',' then
                let (sp3, r7) := spanP isGoSpace r6
                if ¬ sp3 = [] then
                  let (hourL, r8) := spanP isDigitChar r7
                  if 1 ≤ hourL.length ∧ hourL.length ≤ 2 then
                    match r8 with
                    | [] => none
                    | cd :: r9 =>
                      if cd = ':' then
                        let (minL, r10) := spanP isDigitChar r9
                        if minL.length = 2 then
                          if r10 = ['A', 'M'] then
                            some ⟨day, mon, year, hourL, minL, false⟩
                          else if r10 = ['P', 'M'] then
                            some ⟨day, mon, year, hourL, minL, true⟩
                          else none
                        else none
                      else none
                  else none
                else none
              else none
          else none
        else none
      else none
    else none
  else none

/-- The `months` table of `ParseApiDate` (Go map, keyed by month name). -/
def monthTable : List (List Char × List Char) :=
  [("Jan".toList, "01".toList), ("Feb".toList, "02".toList),
   ("Mar".toList, "03".toList), ("Apr".toList, "04".toList),
   ("May".toList, "05".toList), ("Jun".toList, "06".toList),
   ("Jul".toList, "07".toList), ("Aug".toList, "08".toList),
   ("Sep".toList, "09".toList), ("Oct".toList, "10".toList),
   ("Nov".toList, "11".toList), ("Dec".toList, "12".toList)]

/-- `months[mon]` with its `ok` flag: the month-name lookup of `ParseApiDate`. -/
def monthNum (m : List Char) : Option (List Char) :=
  (monthTable.find? (fun p => p.1 == m)).map Prod.snd

/-- `strconv.Atoi` restricted to the digit strings produced by the regex. -/
def atoiL (ds : List Char) : Nat :=
  ds.foldl (fun a c => a * 10 + (c.toNat - 48)) 0

/-- Go `fmt` zero padding to width 2 for a string verb (`%02s`). -/
def pad2s (s : List Char) : List Char :=
  List.replicate (2 - s.length) '0' ++ s

/-- Decimal rendering with explicit fuel (the first argument strictly
decreases; `n + 1` fuel always suffices since `n / 10 < n`). -/
def natDigitsAux : Nat → Nat → List Char → List Char
  | 0, _, acc => acc
  | fuel + 1, n, acc =>
    if n < 10 then Char.ofNat (48 + n) :: acc
    else natDigitsAux fuel (n / 10) (Char.ofNat (48 + n % 10) :: acc)

/-- Decimal rendering of a `Nat` (the digits of Go `%d` on non-negatives). -/
def natDigits (n : Nat) : List Char := natDigitsAux (n + 1) n []

/-- Go `fmt` zero padding to width 2 for an integer verb (`%02d`),
on the non-negative values produced here. -/
def pad2d (n : Nat) : List Char :=
  List.replicate (2 - (natDigits n).length) '0' ++ natDigits n

/-- `strings.ReplaceAll result " T" "T"`: replace every (non-overlapping,
leftmost-first) occurrence of `' ', 'T'` by `'T'`. -/
def replaceSpaceT : List Char → List Char
  | [] => []
  | [c] => [c]
  | c1 :: c2 :: rest =>
    if c1 = ' ' ∧ c2 = 'T' then 'T' :: replaceSpaceT rest
    else c1 :: replaceSpaceT (c2 :: rest)

/-- The 12-hour-to-24-hour lines of `ParseApiDate`:
`if ampm == "PM" && hour != 12 { hour += 12 }` then
`if ampm == "AM" && hour == 12 { hour = 0 }`. -/
def codeHour24 (hour0 : Nat) (pm : Bool) : Nat :=
  let hour1 := if pm ∧ hour0 ≠ 12 then hour0 + 12 else hour0
  if (¬ pm) ∧ hour1 = 12 then 0 else hour1

/-- `ParseApiDate` from `db.go`: converts `"11 Feb 2026, 04:30AM"` to an ISO
string; `nil` (here `none`) for the empty string and any non-matching input. -/
def ParseApiDate (dateStr : String) : Option String :=
  if dateStr = "" then none
  else
    match parseFields dateStr.toList with
    | none => none
    | some f =>
      match monthNum f.mon with
      | none => none
      | some mn =>
        let hour2 := codeHour24 (atoiL f.hour) f.pm
        let rendered :=
          f.year ++ '-' :: mn ++ '-' :: pad2s f.day ++ ' ' :: 'T' :: pad2d hour2 ++
            ':' :: f.minute ++ (":00.000Z".toList)
        some (replaceSpaceT rendered).asString

/-! ## Local cache store (db.go)

Tables are association lists of rows keyed by `id` (the `PRIMARY KEY`).
`INSERT … ON CONFLICT(id) DO UPDATE` updates the existing row in place when a
row with the same id exists, and appends otherwise.  Timestamp parsing with
`TRY_CAST` is modelled by the `Option` result of `ParseApiDate` (the rendered
ISO strings cast successfully; `NULL` stays `NULL`). -/

/-- Go struct `db.StoryRow` (the upsert input). -/
structure StoryRow where
  id : Int
  projectId : Int
  title : String
  description : Option String
  storyType : Option String
  currentState : Option String
  estimate : Option Int
  priority : Option String
  url : Option String
  requestedById : Option Int
  ownerNames : Option String
  labelNames : Option String
  isMine : Bool
  mentionsMe : Bool
  createdAt : String
  updatedAt : String
  deriving DecidableEq, Repr

/-- A persisted row of the `stories` table. -/
structure StoryStored where
  id : Int
  projectId : Int
  title : String
  description : Option String
  storyType : Option String
  currentState : Option String
  estimate : Option Int
  priority : Option String
  url : Option String
  requestedById : Option Int
  ownerNames : Option String
  labelNames : Option String
  isMine : Bool
  mentionsMe : Bool
  createdAt : Option String
  updatedAt : Option String
  syncedAt : String
  deriving DecidableEq, Repr

/-- The row proposed by the `INSERT` clause of `UpsertStory` (the SQL
`excluded` row). -/
def storyInsertRow (s : StoryRow) (now : String) : StoryStored :=
  { id := s.id, projectId := s.projectId, title := s.title,
    description := s.description, storyType := s.storyType,
    currentState := s.currentState, estimate := s.estimate,
    priority := s.priority, url := s.url, requestedById := s.requestedById,
    ownerNames := s.ownerNames, labelNames := s.labelNames,
    isMine := s.isMine, mentionsMe := s.mentionsMe,
    createdAt := ParseApiDate s.createdAt, updatedAt := ParseApiDate s.updatedAt,
    syncedAt := now }

/-- The `DO UPDATE SET` clause of `UpsertStory`: every listed column takes the
`excluded` value, `mentions_me` becomes
`CASE WHEN excluded.mentions_me THEN true ELSE stories.mentions_me END`, and
the unlisted columns (`id`, `project_id`) keep the stored values. -/
def storyConflictUpdate (old new : StoryStored) : StoryStored :=
  { id := old.id, projectId := old.projectId, title := new.title,
    description := new.description, storyType := new.storyType,
    currentState := new.currentState, estimate := new.estimate,
    priority := new.priority, url := new.url,
    requestedById := new.requestedById, ownerNames := new.ownerNames,
    labelNames := new.labelNames, isMine := new.isMine,
    mentionsMe := if new.mentionsMe then true else old.mentionsMe,
    createdAt := new.createdAt, updatedAt := new.updatedAt,
    syncedAt := new.syncedAt }

/-- `UpsertStory` from `db.go`. -/
def UpsertStory (tbl : List StoryStored) (s : StoryRow) (now : String) :
    List StoryStored :=
  let new := storyInsertRow s now
  if tbl.any (fun r => r.id == s.id) then
    tbl.map (fun r => if r.id == s.id then storyConflictUpdate r new else r)
  else tbl ++ [new]

/-- Go struct `db.CommentRow` (the upsert input). -/
structure CommentRow where
  id : Int
  storyId : Int
  projectId : Int
  text : Option String
  personId : Option Int
  personName : Option String
  mentionsMe : Bool
  createdAt : String
  deriving DecidableEq, Repr

/-- A persisted row of the `comments` table. -/
structure CommentStored where
  id : Int
  storyId : Int
  projectId : Int
  text : Option String
  personId : Option Int
  personName : Option String
  mentionsMe : Bool
  createdAt : Option String
  syncedAt : String
  deriving DecidableEq, Repr

/-- The row proposed by the `INSERT` clause of `UpsertComment`. -/
def commentInsertRow (c : CommentRow) (now : String) : CommentStored :=
  { id := c.id, storyId := c.storyId, projectId := c.projectId,
    text := c.text, personId := c.personId, personName := c.personName,
    mentionsMe := c.mentionsMe, createdAt := ParseApiDate c.createdAt,
    syncedAt := now }

/-- The `DO UPDATE SET` clause of `UpsertComment`: only `text`, `person_id`,
`person_name`, `mentions_me` (monotone OR) and `synced_at` are listed;
`story_id`, `project_id` and `created_at` keep the stored values. -/
def commentConflictUpdate (old new : CommentStored) : CommentStored :=
  { id := old.id, storyId := old.storyId, projectId := old.projectId,
    text := new.text, personId := new.personId, personName := new.personName,
    mentionsMe := if new.mentionsMe then true else old.mentionsMe,
    createdAt := old.createdAt, syncedAt := new.syncedAt }

/-- `UpsertComment` from `db.go`. -/
def UpsertComment (tbl : List CommentStored) (c : CommentRow) (now : String) :
    List CommentStored :=
  let new := commentInsertRow c now
  if tbl.any (fun r => r.id == c.id) then
    tbl.map (fun r => if r.id == c.id then commentConflictUpdate r new else r)
  else tbl ++ [new]

/-- `MarkStoryMentionsMe` from `db.go`:
`UPDATE stories SET mentions_me = true WHERE id = ?`. -/
def MarkStoryMentionsMe (tbl : List StoryStored) (storyID : Int) :
    List StoryStored :=
  tbl.map (fun r => if r.id == storyID then { r with mentionsMe := true } else r)

/-- `SELECT * FROM stories WHERE id = ?` (first matching row). -/
def findStory (tbl : List StoryStored) (id : Int) : Option StoryStored :=
  tbl.find? (fun r => r.id == id)

/-- `SELECT * FROM comments WHERE id = ?` (first matching row). -/
def findComment (tbl : List CommentStored) (id : Int) : Option CommentStored :=
  tbl.find? (fun r => r.id == id)

/-! ## Generic facts about keyed updates -/

theorem key_ite {α : Type} (key : α → Int) (g : α → α)
    (hg : ∀ r, key (g r) = key r) (sid : Int) (r : α) :
    key (if key r == sid then g r else r) = key r := by
  by_cases h : key r == sid <;> simp [h, hg]

theorem find?_map_keyed {α : Type} (key : α → Int) (g : α → α)
    (hg : ∀ r, key (g r) = key r) (sid tid : Int) :
    ∀ tbl : List α,
      (tbl.map (fun r => if key r == sid then g r else r)).find?
          (fun r => key r == tid) =
        (tbl.find? (fun r => key r == tid)).map
          (fun r => if key r == sid then g r else r) := by
  intro tbl
  induction tbl with
  | nil => simp
  | cons r tl ih =>
    have hk : key (if key r == sid then g r else r) = key r := key_ite key g hg sid r
    simp only [List.map_cons, List.find?_cons, hk]
    cases h : (key r == tid) with
    | true => simp
    | false => simpa using ih

theorem find?_append_none {α : Type} (p : α → Bool) (l₁ l₂ : List α)
    (h : l₁.find? p = none) : (l₁ ++ l₂).find? p = l₂.find? p := by
  induction l₁ with
  | nil => simp
  | cons r tl ih =>
    by_cases hr : p r
    · rw [List.find?_cons_of_pos _ hr] at h; cases h
    · rw [List.find?_cons_of_neg _ hr] at h
      simpa [List.find?_cons_of_neg _ hr] using ih h

theorem find?_append_some {α : Type} (p : α → Bool) (l₁ l₂ : List α) (a : α)
    (h : l₁.find? p = some a) : (l₁ ++ l₂).find? p = some a := by
  induction l₁ with
  | nil => cases h
  | cons r tl ih =>
    by_cases hr : p r
    · rw [List.find?_cons_of_pos _ hr] at h
      simpa [List.find?_cons_of_pos _ hr] using h
    · rw [List.find?_cons_of_neg _ hr] at h
      simpa [List.find?_cons_of_neg _ hr] using ih h

theorem any_eq_false_find?_none {α : Type} (p : α → Bool) (l : List α)
    (h : l.any p = false) : l.find? p = none := by
  rw [List.find?_eq_none]
  intro a ha hpa
  have htrue : l.any p = true := List.any_eq_true.mpr ⟨a, ha, hpa⟩
  rw [h] at htrue
  cases htrue

/-! ## Story-table lemmas -/

theorem upsertStory_preserves_mention (tbl : List StoryStored) (s : StoryRow)
    (now : String) (id : Int) (r : StoryStored)
    (h : findStory tbl id = some r) (hm : r.mentionsMe = true) :
    ∃ r', findStory (UpsertStory tbl s now) id = some r' ∧ r'.mentionsMe = true := by
  unfold UpsertStory findStory at *
  by_cases hany : tbl.any (fun r => r.id == s.id)
  · rw [if_pos hany, find?_map_keyed StoryStored.id
      (fun r => storyConflictUpdate r (storyInsertRow s now)) (fun _ => rfl) s.id id, h]
    by_cases hid : r.id = s.id
    · refine ⟨storyConflictUpdate r (storyInsertRow s now), by simp [hid], ?_⟩
      cases hb : (storyInsertRow s now).mentionsMe <;>
        simp [storyConflictUpdate, hb, hm]
    · exact ⟨r, by simp [hid], hm⟩
  · rw [if_neg hany]
    exact ⟨r, find?_append_some _ _ _ _ h, hm⟩

theorem upsertStory_exists_self (tbl : List StoryStored) (s : StoryRow)
    (now : String) :
    ∃ r', findStory (UpsertStory tbl s now) s.id = some r' := by
  unfold UpsertStory findStory
  by_cases hany : tbl.any (fun r => r.id == s.id)
  · rw [if_pos hany, find?_map_keyed StoryStored.id
      (fun r => storyConflictUpdate r (storyInsertRow s now)) (fun _ => rfl) s.id s.id]
    obtain ⟨r, hmem, hr⟩ := List.any_eq_true.mp hany
    have hsome : (tbl.find? (fun r => r.id == s.id)).isSome :=
      List.find?_isSome.mpr ⟨r, hmem, hr⟩
    obtain ⟨r', hfind⟩ := Option.isSome_iff_exists.mp hsome
    exact ⟨_, by rw [hfind]; rfl⟩
  · rw [if_neg hany,
      find?_append_none _ _ _ (any_eq_false_find?_none _ _ (by simpa using hany))]
    exact ⟨storyInsertRow s now, by simp [storyInsertRow]⟩

theorem upsertStory_preserves_exists (tbl : List StoryStored) (s : StoryRow)
    (now : String) (id : Int) (r : StoryStored) (h : findStory tbl id = some r) :
    ∃ r', findStory (UpsertStory tbl s now) id = some r' := by
  unfold UpsertStory findStory at *
  by_cases hany : tbl.any (fun r => r.id == s.id)
  · rw [if_pos hany, find?_map_keyed StoryStored.id
      (fun r => storyConflictUpdate r (storyInsertRow s now)) (fun _ => rfl) s.id id, h]
    exact ⟨_, rfl⟩
  · rw [if_neg hany]
    exact ⟨r, find?_append_some _ _ _ _ h⟩

theorem mark_preserves_mention (tbl : List StoryStored) (sid id : Int)
    (r : StoryStored) (h : findStory tbl id = some r) (hm : r.mentionsMe = true) :
    ∃ r', findStory (MarkStoryMentionsMe tbl sid) id = some r' ∧
      r'.mentionsMe = true := by
  unfold MarkStoryMentionsMe findStory at *
  rw [find?_map_keyed StoryStored.id (fun r => { r with mentionsMe := true })
    (fun _ => rfl) sid id, h]
  by_cases hid : r.id = sid
  · exact ⟨{ r with mentionsMe := true }, by simp [hid], rfl⟩
  · exact ⟨r, by simp [hid], hm⟩

theorem mark_sets_mention (tbl : List StoryStored) (sid : Int) (r : StoryStored)
    (h : findStory tbl sid = some r) :
    ∃ r', findStory (MarkStoryMentionsMe tbl sid) sid = some r' ∧
      r'.mentionsMe = true := by
  unfold MarkStoryMentionsMe findStory at *
  rw [find?_map_keyed StoryStored.id (fun r => { r with mentionsMe := true })
    (fun _ => rfl) sid sid, h]
  have hid : r.id = sid := by simpa using List.find?_some h
  exact ⟨{ r with mentionsMe := true }, by simp [hid], rfl⟩

theorem mark_preserves_exists (tbl : List StoryStored) (sid id : Int)
    (r : StoryStored) (h : findStory tbl id = some r) :
    ∃ r', findStory (MarkStoryMentionsMe tbl sid) id = some r' := by
  unfold MarkStoryMentionsMe findStory at *
  rw [find?_map_keyed StoryStored.id (fun r => { r with mentionsMe := true })
    (fun _ => rfl) sid id, h]
  exact ⟨_, rfl⟩

/-! ## Comment-table lemmas -/

theorem upsertComment_preserves_mention (tbl : List CommentStored)
    (c : CommentRow) (now : String) (id : Int) (r : CommentStored)
    (h : findComment tbl id = some r) (hm : r.mentionsMe = true) :
    ∃ r', findComment (UpsertComment tbl c now) id = some r' ∧
      r'.mentionsMe = true := by
  unfold UpsertComment findComment at *
  by_cases hany : tbl.any (fun r => r.id == c.id)
  · rw [if_pos hany, find?_map_keyed CommentStored.id
      (fun r => commentConflictUpdate r (commentInsertRow c now)) (fun _ => rfl) c.id id, h]
    by_cases hid : r.id = c.id
    · refine ⟨commentConflictUpdate r (commentInsertRow c now), by simp [hid], ?_⟩
      cases hb : (commentInsertRow c now).mentionsMe <;>
        simp [commentConflictUpdate, hb, hm]
    · exact ⟨r, by simp [hid], hm⟩
  · rw [if_neg hany]
    exact ⟨r, find?_append_some _ _ _ _ h, hm⟩

theorem upsertComment_sets_mention (tbl : List CommentStored) (c : CommentRow)
    (now : String) (hm : c.mentionsMe = true) :
    ∃ r', findComment (UpsertComment tbl c now) c.id = some r' ∧
      r'.mentionsMe = true := by
  unfold UpsertComment findComment
  by_cases hany : tbl.any (fun r => r.id == c.id)
  · rw [if_pos hany, find?_map_keyed CommentStored.id
      (fun r => commentConflictUpdate r (commentInsertRow c now)) (fun _ => rfl) c.id c.id]
    obtain ⟨r, hmem, hr⟩ := List.any_eq_true.mp hany
    have hsome : (tbl.find? (fun r => r.id == c.id)).isSome :=
      List.find?_isSome.mpr ⟨r, hmem, hr⟩
    obtain ⟨r', hfind⟩ := Option.isSome_iff_exists.mp hsome
    have hid : r'.id = c.id := by simpa using List.find?_some hfind
    refine ⟨commentConflictUpdate r' (commentInsertRow c now), ?_, ?_⟩
    · rw [hfind]; simp [hid]
    · simp [commentConflictUpdate, commentInsertRow, hm]
  · rw [if_neg hany,
      find?_append_none _ _ _ (any_eq_false_find?_none _ _ (by simpa using hany))]
    exact ⟨commentInsertRow c now, by simp [commentInsertRow], by
      simp [commentInsertRow, hm]⟩

end LiteTracker

namespace LiteTracker

/-! ## Operation sequences on the `stories` table (claim C1) -/

/-- The two write operations that touch `stories.mentions_me`. -/
inductive StoreOp where
  | upsert (s : StoryRow) (now : String)
  | mark (storyId : Int)

/-- Apply one store operation. -/
def applyOp (tbl : List StoryStored) : StoreOp → List StoryStored
  | .upsert s now => UpsertStory tbl s now
  | .mark sid => MarkStoryMentionsMe tbl sid

/-- Apply a sequence of store operations in order. -/
def applyOps (tbl : List StoryStored) (ops : List StoreOp) : List StoryStored :=
  ops.foldl applyOp tbl

theorem applyOp_preserves_mention (tbl : List StoryStored) (op : StoreOp)
    (id : Int) (r : StoryStored) (h : findStory tbl id = some r)
    (hm : r.mentionsMe = true) :
    ∃ r', findStory (applyOp tbl op) id = some r' ∧ r'.mentionsMe = true := by
  cases op with
  | upsert s now => exact upsertStory_preserves_mention tbl s now id r h hm
  | mark sid => exact mark_preserves_mention tbl sid id r h hm

/-- **C1.**  The story `mentions_me` flag is monotonic: across any sequence of
`UpsertStory` and `MarkStoryMentionsMe` calls, once a stored row's flag is
true it stays true; and a single `UpsertStory` on an existing id combines the
flag as incoming OR existing (so an incoming `false` leaves `true` intact). -/
theorem c1_story_mentionsMe_monotonic :
    (∀ (tbl : List StoryStored) (ops : List StoreOp) (id : Int) (r : StoryStored),
      findStory tbl id = some r → r.mentionsMe = true →
      ∃ r', findStory (applyOps tbl ops) id = some r' ∧ r'.mentionsMe = true)
    ∧ (∀ (tbl : List StoryStored) (s : StoryRow) (now : String) (old : StoryStored),
      findStory tbl s.id = some old →
      ∃ r', findStory (UpsertStory tbl s now) s.id = some r' ∧
        r'.mentionsMe = (s.mentionsMe || old.mentionsMe)) := by
  constructor
  · intro tbl ops
    induction ops generalizing tbl with
    | nil => intro id r h hm; exact ⟨r, h, hm⟩
    | cons op rest ih =>
      intro id r h hm
      obtain ⟨r', h', hm'⟩ := applyOp_preserves_mention tbl op id r h hm
      exact ih (applyOp tbl op) id r' h' hm'
  · intro tbl s now old h
    have h0 : tbl.find? (fun r => r.id == s.id) = some old := h
    have hmem : old ∈ tbl := List.mem_of_find?_eq_some h0
    have hid : old.id = s.id := by simpa using List.find?_some h0
    have hany : (tbl.any fun r => r.id == s.id) = true :=
      List.any_eq_true.mpr ⟨old, hmem, by simpa using hid⟩
    unfold UpsertStory findStory
    rw [if_pos hany, find?_map_keyed StoryStored.id
      (fun r => storyConflictUpdate r (storyInsertRow s now)) (fun _ => rfl) s.id s.id]
    unfold findStory at h
    rw [h]
    refine ⟨storyConflictUpdate old (storyInsertRow s now), by simp [hid], ?_⟩
    cases hb : s.mentionsMe <;> simp [storyConflictUpdate, storyInsertRow, hb]

/-- Concrete story row with `mentions_me = true` (for the C1 witness). -/
def sampleStoryRow : StoryRow :=
  { id := 1, projectId := 5, title := "a", description := none,
    storyType := none, currentState := none, estimate := none, priority := none,
    url := none, requestedById := none, ownerNames := none, labelNames := none,
    isMine := false, mentionsMe := true, createdAt := "", updatedAt := "" }

/-- The same story id written again with `mentions_me = false`. -/
def sampleStoryRow2 : StoryRow :=
  { sampleStoryRow with mentionsMe := false, title := "b" }

/-- Witness for C1: a concrete true flag survives a false re-upsert and an
unrelated mark. -/
theorem c1_story_mentionsMe_monotonic_witness :
    ∃ r', findStory (applyOps (UpsertStory [] sampleStoryRow "t0")
        [StoreOp.upsert sampleStoryRow2 "t1", StoreOp.mark 2]) 1 = some r' ∧
      r'.mentionsMe = true :=
  c1_story_mentionsMe_monotonic.1 (UpsertStory [] sampleStoryRow "t0")
    [StoreOp.upsert sampleStoryRow2 "t1", StoreOp.mark 2] 1
    (storyInsertRow sampleStoryRow "t0") (by decide) (by decide)

end LiteTracker

namespace LiteTracker

/-! ## Exactly-one-row facts for upserts (claim C2) -/

theorem filter_map_keyed_nil {α : Type} (key : α → Int) (g : α → α)
    (hg : ∀ r, key (g r) = key r) (sid : Int) (tbl : List α)
    (h : ∀ x ∈ tbl, ¬ key x = sid) :
    (tbl.map (fun r => if key r == sid then g r else r)).filter
      (fun r => key r == sid) = [] := by
  induction tbl with
  | nil => simp
  | cons r tl ih =>
    have hr : ¬ key r = sid := h r (List.mem_cons_self r tl)
    have hk : key (if key r == sid then g r else r) = key r := key_ite key g hg sid r
    simp only [List.map_cons, List.filter_cons, hk]
    rw [if_neg (by simpa using hr)]
    exact ih (fun x hx => h x (List.mem_cons_of_mem r hx))

theorem filter_map_keyed_unique {α : Type} (key : α → Int) (g : α → α)
    (hg : ∀ r, key (g r) = key r) (sid : Int) (tbl : List α)
    (hnd : (tbl.map key).Nodup) (old : α)
    (hfind : tbl.find? (fun r => key r == sid) = some old) :
    (tbl.map (fun r => if key r == sid then g r else r)).filter
      (fun r => key r == sid) = [g old] := by
  induction tbl with
  | nil => cases hfind
  | cons r tl ih =>
    have hk : key (if key r == sid then g r else r) = key r := key_ite key g hg sid r
    rw [List.map_cons, List.nodup_cons] at hnd
    by_cases hr : key r = sid
    · have hold : old = r := by
        rw [List.find?_cons_of_pos _ (by simpa using hr)] at hfind
        exact (Option.some.inj hfind).symm
      subst hold
      have hnone : ∀ x ∈ tl, ¬ key x = sid := by
        intro x hx hxk
        exact hnd.1 (List.mem_map.mpr ⟨x, hx, hxk.trans hr.symm⟩)
      simp only [List.map_cons, List.filter_cons, hk]
      rw [if_pos (by simpa using hr), if_pos (by simpa using hr),
        filter_map_keyed_nil key g hg sid tl hnone]
    · rw [List.find?_cons_of_neg _ (by simpa using hr)] at hfind
      simp only [List.map_cons, List.filter_cons, hk]
      rw [if_neg (by simpa using hr)]
      exact ih hnd.2 hfind

/-- Rows of the stories table sharing a given id. -/
def storyRowsWithId (tbl : List StoryStored) (id : Int) : List StoryStored :=
  tbl.filter (fun r => r.id == id)

/-- Rows of the comments table sharing a given id. -/
def commentRowsWithId (tbl : List CommentStored) (id : Int) : List CommentStored :=
  tbl.filter (fun r => r.id == id)

/-- First write of the C2 counterexample: story id 1 in project 1. -/
def c2StoryA : StoryRow :=
  { id := 1, projectId := 1, title := "a", description := none,
    storyType := none, currentState := none, estimate := none, priority := none,
    url := none, requestedById := none, ownerNames := none, labelNames := none,
    isMine := false, mentionsMe := false, createdAt := "", updatedAt := "" }

/-- Second write of the C2 counterexample: same id, different `project_id`. -/
def c2StoryB : StoryRow := { c2StoryA with projectId := 2 }

/-- First write of the C2 comments counterexample. -/
def c2CommentA : CommentRow :=
  { id := 7, storyId := 1, projectId := 1, text := some "a", personId := none,
    personName := none, mentionsMe := false, createdAt := "1 Feb 2026, 04:30AM" }

/-- Second write: same comment id, different text, story id and timestamp. -/
def c2CommentB : CommentRow :=
  { c2CommentA with
    text := some "b"
    storyId := 2
    createdAt := "2 Mar 2027, 05:45PM" }

/-- Counterexample to C2 as stated: after a second upsert of the same id, the
stored story keeps the FIRST write's `project_id`, and the stored comment
keeps the FIRST write's `story_id` and `created_at` — not the incoming
(second) values. -/
theorem c2_counterexample :
    (∃ r, findStory (UpsertStory (UpsertStory [] c2StoryA "t0") c2StoryB "t1") 1
        = some r ∧ ¬ r.projectId = c2StoryB.projectId)
    ∧ (∃ r, findComment
        (UpsertComment (UpsertComment [] c2CommentA "t0") c2CommentB "t1") 7
        = some r ∧ ¬ r.createdAt = ParseApiDate c2CommentB.createdAt
        ∧ ¬ r.storyId = c2CommentB.storyId) := by
  refine ⟨⟨storyConflictUpdate (storyInsertRow c2StoryA "t0")
      (storyInsertRow c2StoryB "t1"), by decide, by decide⟩,
    ⟨commentConflictUpdate (commentInsertRow c2CommentA "t0")
      (commentInsertRow c2CommentB "t1"), by decide, by decide, by decide⟩⟩

/-- **C2 (amended).**  Upserting an id that already exists yields exactly one
row for that id.  For stories, every updated column takes the incoming value
and `mentions_me` becomes incoming OR existing, but `project_id` keeps the
existing value.  For comments, `text`, `person_id`, `person_name` and
`synced_at` take the incoming values and `mentions_me` becomes incoming OR
existing, while `story_id`, `project_id` and `created_at` keep the existing
values. -/
theorem c2_upsert_conflict_semantics :
    (∀ (tbl : List StoryStored) (s : StoryRow) (now : String) (old : StoryStored),
      (tbl.map StoryStored.id).Nodup → findStory tbl s.id = some old →
      ∃ r, storyRowsWithId (UpsertStory tbl s now) s.id = [r] ∧
        r.title = s.title ∧ r.description = s.description ∧
        r.storyType = s.storyType ∧ r.currentState = s.currentState ∧
        r.estimate = s.estimate ∧ r.priority = s.priority ∧ r.url = s.url ∧
        r.requestedById = s.requestedById ∧ r.ownerNames = s.ownerNames ∧
        r.labelNames = s.labelNames ∧ r.isMine = s.isMine ∧
        r.mentionsMe = (s.mentionsMe || old.mentionsMe) ∧
        r.createdAt = ParseApiDate s.createdAt ∧
        r.updatedAt = ParseApiDate s.updatedAt ∧ r.syncedAt = now ∧
        r.projectId = old.projectId ∧ r.id = s.id)
    ∧ (∀ (tbl : List CommentStored) (c : CommentRow) (now : String) (old : CommentStored),
      (tbl.map CommentStored.id).Nodup → findComment tbl c.id = some old →
      ∃ r, commentRowsWithId (UpsertComment tbl c now) c.id = [r] ∧
        r.text = c.text ∧ r.personId = c.personId ∧
        r.personName = c.personName ∧
        r.mentionsMe = (c.mentionsMe || old.mentionsMe) ∧ r.syncedAt = now ∧
        r.storyId = old.storyId ∧ r.projectId = old.projectId ∧
        r.createdAt = old.createdAt ∧ r.id = c.id) := by
  constructor
  · intro tbl s now old hnd h
    have h0 : tbl.find? (fun r => r.id == s.id) = some old := h
    have hmem : old ∈ tbl := List.mem_of_find?_eq_some h0
    have hid : old.id = s.id := by simpa using List.find?_some h0
    have hany : (tbl.any fun r => r.id == s.id) = true :=
      List.any_eq_true.mpr ⟨old, hmem, by simpa using hid⟩
    refine ⟨storyConflictUpdate old (storyInsertRow s now), ?_, ?_⟩
    · unfold storyRowsWithId UpsertStory
      rw [if_pos hany]
      exact filter_map_keyed_unique StoryStored.id
        (fun r => storyConflictUpdate r (storyInsertRow s now)) (fun _ => rfl)
        s.id tbl hnd old h0
    · refine ⟨rfl, rfl, rfl, rfl, rfl, rfl, rfl, rfl, rfl, rfl, rfl, ?_, rfl,
        rfl, rfl, rfl, hid⟩
      cases hb : s.mentionsMe <;> simp [storyConflictUpdate, storyInsertRow, hb]
  · intro tbl c now old hnd h
    have h0 : tbl.find? (fun r => r.id == c.id) = some old := h
    have hmem : old ∈ tbl := List.mem_of_find?_eq_some h0
    have hid : old.id = c.id := by simpa using List.find?_some h0
    have hany : (tbl.any fun r => r.id == c.id) = true :=
      List.any_eq_true.mpr ⟨old, hmem, by simpa using hid⟩
    refine ⟨commentConflictUpdate old (commentInsertRow c now), ?_, ?_⟩
    · unfold commentRowsWithId UpsertComment
      rw [if_pos hany]
      exact filter_map_keyed_unique CommentStored.id
        (fun r => commentConflictUpdate r (commentInsertRow c now)) (fun _ => rfl)
        c.id tbl hnd old h0
    · refine ⟨rfl, rfl, rfl, ?_, rfl, rfl, rfl, rfl, hid⟩
      cases hb : c.mentionsMe <;> simp [commentConflictUpdate, commentInsertRow, hb]

/-- Witness for the amended C2 on a concrete double upsert. -/
theorem c2_upsert_conflict_semantics_witness :
    ∃ r, storyRowsWithId (UpsertStory (UpsertStory [] c2StoryA "t0") c2StoryB "t1") c2StoryB.id = [r] ∧
      r.title = c2StoryB.title ∧ r.description = c2StoryB.description ∧
      r.storyType = c2StoryB.storyType ∧ r.currentState = c2StoryB.currentState ∧
      r.estimate = c2StoryB.estimate ∧ r.priority = c2StoryB.priority ∧
      r.url = c2StoryB.url ∧ r.requestedById = c2StoryB.requestedById ∧
      r.ownerNames = c2StoryB.ownerNames ∧ r.labelNames = c2StoryB.labelNames ∧
      r.isMine = c2StoryB.isMine ∧
      r.mentionsMe = (c2StoryB.mentionsMe || (storyInsertRow c2StoryA "t0").mentionsMe) ∧
      r.createdAt = ParseApiDate c2StoryB.createdAt ∧
      r.updatedAt = ParseApiDate c2StoryB.updatedAt ∧ r.syncedAt = "t1" ∧
      r.projectId = (storyInsertRow c2StoryA "t0").projectId ∧ r.id = c2StoryB.id :=
  c2_upsert_conflict_semantics.1 (UpsertStory [] c2StoryA "t0") c2StoryB "t1"
    (storyInsertRow c2StoryA "t0") (by decide) (by decide)

end LiteTracker

namespace LiteTracker

/-! ## Poll loop (main.go)

`poll` iterates the tracked projects, fetches activity since the stored
cursor, decides per activity whether to notify, then unconditionally advances
the cursor to the `now` captured at the start of the cycle and persists it.
Fetching is modelled by an oracle `fetch : projectId → since → Except …`;
persistence by the returned state.  A change's `new_values` map is modelled
by its JSON serialisation (`json.Marshal(c.NewValues)`), present exactly when
`NewValues != nil`. -/

/-- One entry of `activity.Changes` (only the field `poll` reads). -/
structure ActivityChangeM where
  newValuesJson : Option String
  deriving DecidableEq, Repr

/-- The fields of `api.Activity` that `poll` reads. -/
structure ActivityM where
  kind : String
  message : String
  performedByName : String
  primaryResourceNames : List String
  changes : List ActivityChangeM
  deriving DecidableEq, Repr

/-- The `mentionsMe` computation in the body of `poll`: check the message if
non-empty, otherwise scan the changes' serialized `new_values`. -/
def activityMentions (username : String) (a : ActivityM) : Bool :=
  let m1 := if ¬ a.message = "" then containsIgnoreCase a.message username else false
  if m1 then true
  else a.changes.any (fun c =>
    match c.newValuesJson with
    | some b => containsIgnoreCase b username
    | none => false)

/-- The notification decision of `poll`:
`mentionsMe || isCommentOnMyStory` where
`isCommentOnMyStory := activity.Kind == "comment_create_activity"`. -/
def activityFires (username : String) (a : ActivityM) : Bool :=
  activityMentions username a || (a.kind == "comment_create_activity")

/-- A delivered notification (title/body passed to `notify.Send`). -/
structure NotificationM where
  title : String
  body : String
  deriving DecidableEq, Repr

/-- Title and body built by `poll` for a firing activity. -/
def notifyOf (a : ActivityM) : NotificationM :=
  { title :=
      match a.primaryResourceNames with
      | n :: _ => "[" ++ n ++ "]"
      | [] => "LiteTracker",
    body :=
      (if ¬ a.performedByName = "" then a.performedByName else "Someone")
        ++ ": " ++ a.message }

/-- The inner activity loop of `poll` for one project's fetched activities. -/
def pollProject (username : String) (acts : List ActivityM) : List NotificationM :=
  (acts.filter (activityFires username)).map notifyOf

/-- `pollState` from main.go. -/
structure PollStateM where
  lastPoll : String
  deriving DecidableEq, Repr

/-- One iteration of the project loop in `poll`: issue the activity query
(recorded in the second component); on error, `continue`; on success append
this project's notifications. -/
def pollStep (username since : String)
    (fetch : Int → String → Except String (List ActivityM))
    (acc : List NotificationM × List (Int × String)) (pid : Int) :
    List NotificationM × List (Int × String) :=
  match fetch pid since with
  | .error _ => (acc.1, acc.2 ++ [(pid, since)])
  | .ok acts => (acc.1 ++ pollProject username acts, acc.2 ++ [(pid, since)])

/-- `poll` from main.go: returns the persisted state, the notifications sent,
and the `(projectID, occurred_after)` queries issued. -/
def poll (username : String) (projects : List Int)
    (fetch : Int → String → Except String (List ActivityM))
    (st : PollStateM) (now : String) :
    PollStateM × List NotificationM × List (Int × String) :=
  let since := st.lastPoll
  let folded := projects.foldl (pollStep username since fetch) ([], [])
  ({ lastPoll := now }, folded.1, folded.2)

theorem pollFold_queries (username since : String)
    (fetch : Int → String → Except String (List ActivityM)) :
    ∀ (projects : List Int) (acc : List NotificationM × List (Int × String)),
      (projects.foldl (pollStep username since fetch) acc).2 =
        acc.2 ++ projects.map (fun pid => (pid, since)) := by
  intro projects
  induction projects with
  | nil => intro acc; simp
  | cons pid rest ih =>
    intro acc
    rw [List.foldl_cons, ih]
    cases hf : fetch pid since <;> simp [pollStep, hf]

/-- The activity of the C3 counterexample: empty message, no changes, not a
comment-creation event. -/
def c3Activity : ActivityM :=
  { kind := "story_update_activity", message := "", performedByName := "Bob",
    primaryResourceNames := [], changes := [] }

/-- Counterexample to C3 as stated: with the configured username empty, the
claim's clause (a) holds for an activity with an empty message (the empty
string contains the empty username as a substring), yet `poll` does not emit
a notification for it, because the code only runs the message check when the
message is non-empty. -/
theorem c3_counterexample :
    activityFires "" c3Activity = false ∧
    (ciSubstring "" c3Activity.message ∨
      (∃ c ∈ c3Activity.changes, ∃ b, c.newValuesJson = some b ∧ ciSubstring "" b) ∨
      c3Activity.kind = "comment_create_activity") := by
  refine ⟨by decide, Or.inl ?_⟩
  decide

/-- Per-change form of clause (b) of the relevance predicate. -/
theorem changeMatch_iff (u : String) (c : ActivityChangeM) :
    ((match c.newValuesJson with
      | some b => containsIgnoreCase b u
      | none => false) = true) ↔
      ∃ b, c.newValuesJson = some b ∧ ciSubstring u b := by
  cases hnv : c.newValuesJson with
  | none => simp
  | some b => simp [containsIgnoreCase_iff]

theorem activityMentions_iff (u : String) (a : ActivityM) :
    activityMentions u a = true ↔
      ((¬ a.message = "") ∧ ciSubstring u a.message) ∨
      (∃ c ∈ a.changes, ∃ b, c.newValuesJson = some b ∧ ciSubstring u b) := by
  unfold activityMentions
  by_cases hmsg : a.message = ""
  · simp [hmsg, List.any_eq_true, changeMatch_iff]
  · by_cases hci : containsIgnoreCase a.message u = true
    · have hsub := (containsIgnoreCase_iff a.message u).mp hci
      simp [hmsg, hci, hsub]
    · have hcisub : ¬ ciSubstring u a.message := fun h =>
        hci ((containsIgnoreCase_iff _ _).mpr h)
      simp [hmsg, hci, hcisub, List.any_eq_true, changeMatch_iff]

/-- **C3 (amended).**  `poll` emits a notification for an activity iff
(a) its message is NON-EMPTY and contains the configured username as a
case-insensitive substring, or (b) some change carries a `new_values` payload
whose JSON serialisation contains the username case-insensitively, or
(c) the activity kind is `comment_create_activity` — and clause (c) applies
regardless of any text match. -/
theorem c3_relevance_predicate (u : String) (a : ActivityM) :
    activityFires u a = true ↔
      ((¬ a.message = "") ∧ ciSubstring u a.message) ∨
      (∃ c ∈ a.changes, ∃ b, c.newValuesJson = some b ∧ ciSubstring u b) ∨
      a.kind = "comment_create_activity" := by
  unfold activityFires
  rw [Bool.or_eq_true, activityMentions_iff]
  simp [or_assoc]

/-- **C4.**  Regardless of per-project fetch failures, the state persisted by
a poll cycle carries the `now` captured at the cycle's start, and every
activity query of the next cycle uses that advanced cursor. -/
theorem c4_cursor_advances (username : String) (projects : List Int)
    (fetch : Int → String → Except String (List ActivityM))
    (st : PollStateM) (now now2 : String) :
    (poll username projects fetch st now).1.lastPoll = now ∧
    (poll username projects fetch (poll username projects fetch st now).1
        now2).2.2 = projects.map (fun pid => (pid, now)) := by
  refine ⟨rfl, ?_⟩
  show (projects.foldl (pollStep username now fetch) ([], [])).2 = _
  rw [pollFold_queries]
  simp

end LiteTracker

namespace LiteTracker

/-! ## Remote API data (internal/api/types.go)

Only the fields read by the code under verification are modelled. -/

/-- `api.StoryOwner`. -/
structure StoryOwnerM where
  id : Int
  userId : Int
  name : String
  initials : String
  deriving DecidableEq, Repr

/-- `api.Story` (the fields read by `addOwner` and `syncProject`). -/
structure Story where
  id : Int
  title : String
  description : String
  storyType : String
  currentState : String
  estimate : Option Int
  storyPriority : String
  labelNames : List String
  owners : List StoryOwnerM
  requestedById : Option Int
  url : String
  createdAt : String
  updatedAt : String
  deriving DecidableEq, Repr

/-- `api.Comment` (the fields read by `syncProject`); `personName` is
`Comment.Person.Name` when `Person != nil`. -/
structure ApiComment where
  id : Int
  text : String
  personId : Int
  personName : Option String
  createdAt : String
  deriving DecidableEq, Repr

/-- `api.Label` (the fields the web client returns). -/
structure LabelM where
  id : Int
  name : String
  deriving DecidableEq, Repr

/-! ## Session auth client (internal/api/webclient.go)

The network is modelled by oracles: the outcome of a login attempt
(`LoginOutcome`) and the `Except` results of the underlying write calls.
The cookie-jar session is summarised by the single `loggedIn` flag the code
branches on. -/

/-- `WebClient` session state (`loggedIn`; the cookie jar backs it). -/
structure WebState where
  loggedIn : Bool
  deriving DecidableEq, Repr

/-- Outcome of one browser-style login attempt. -/
inductive LoginOutcome where
  | success
  | badStatus (code : Nat)
  | noCsrf
  | transport (msg : String)
  | missingCreds
  deriving DecidableEq, Repr

/-- `ensureLoggedIn` from webclient.go: no-op when already logged in,
otherwise run the login protocol; the second component records whether the
login procedure actually ran. -/
def ensureLoggedIn (st : WebState) (lo : LoginOutcome) :
    Except String WebState × Bool :=
  if st.loggedIn then (.ok st, false)
  else
    match lo with
    | .missingCreds =>
      (.error "LITETRACKER_EMAIL and LITETRACKER_PASSWORD must be set", true)
    | .transport msg => (.error msg, true)
    | .noCsrf => (.error "could not find CSRF token on login page", true)
    | .badStatus code =>
      (.error ("login failed (status " ++ toString code ++
        "): check LITETRACKER_EMAIL and LITETRACKER_PASSWORD"), true)
    | .success => (.ok { loggedIn := true }, true)

/-- The session-expiry test of the write wrappers:
`strings.Contains(err.Error(), "401") || strings.Contains(err.Error(), "sign in")`. -/
def sessionExpiryError (e : String) : Bool :=
  strContains e "401" || strContains e "sign in"

/-- Observable outcome of one wrapped write call. -/
structure WriteOutcome (α : Type) where
  result : Except String α
  finalState : WebState
  opAttempts : Nat
  markedLoggedOut : Bool
  reloginRan : Bool

/-- The shared shape of `WebPostComment`, `WebAddLabel` and `WebAddOwner`:
ensure login, run the operation once; on an error that looks like session
expiry force `loggedIn = false`, re-login, and run the operation exactly one
more time, returning its result unmodified. -/
def webWriteRetry {α : Type} (st : WebState) (lo1 lo2 : LoginOutcome)
    (r1 r2 : Except String α) : WriteOutcome α :=
  match ensureLoggedIn st lo1 with
  | (.error e, _) =>
    { result := .error e, finalState := st, opAttempts := 0,
      markedLoggedOut := false, reloginRan := false }
  | (.ok st1, _) =>
    match r1 with
    | .ok v =>
      { result := .ok v, finalState := st1, opAttempts := 1,
        markedLoggedOut := false, reloginRan := false }
    | .error e =>
      if sessionExpiryError e then
        match ensureLoggedIn { loggedIn := false } lo2 with
        | (.error e2, ran) =>
          { result := .error e2, finalState := { loggedIn := false },
            opAttempts := 1, markedLoggedOut := true, reloginRan := ran }
        | (.ok st3, ran) =>
          { result := r2, finalState := st3, opAttempts := 2,
            markedLoggedOut := true, reloginRan := ran }
      else
        { result := .error e, finalState := st1, opAttempts := 1,
          markedLoggedOut := false, reloginRan := false }

/-- `WebPostComment` from webclient.go. -/
def WebPostComment (st : WebState) (lo1 lo2 : LoginOutcome)
    (r1 r2 : Except String ApiComment) : WriteOutcome ApiComment :=
  webWriteRetry st lo1 lo2 r1 r2

/-- `WebAddLabel` from webclient.go. -/
def WebAddLabel (st : WebState) (lo1 lo2 : LoginOutcome)
    (r1 r2 : Except String LabelM) : WriteOutcome LabelM :=
  webWriteRetry st lo1 lo2 r1 r2

/-- `WebAddOwner` from webclient.go (the retry wrapper around `addOwner`). -/
def WebAddOwner (st : WebState) (lo1 lo2 : LoginOutcome)
    (r1 r2 : Except String (List StoryOwnerM)) : WriteOutcome (List StoryOwnerM) :=
  webWriteRetry st lo1 lo2 r1 r2

theorem ensureLoggedIn_ran_of_loggedOut (lo : LoginOutcome) :
    (ensureLoggedIn { loggedIn := false } lo).2 = true := by
  cases lo <;> rfl

theorem webWriteRetry_expiry {α : Type} (st : WebState) (lo1 lo2 : LoginOutcome)
    (e : String) (r2 : Except String α)
    (h1 : (ensureLoggedIn st lo1).1 = .ok { loggedIn := true })
    (h2 : sessionExpiryError e = true)
    (h3 : (ensureLoggedIn { loggedIn := false } lo2).1 = .ok { loggedIn := true }) :
    (webWriteRetry st lo1 lo2 (.error e) r2).opAttempts = 2 ∧
    (webWriteRetry st lo1 lo2 (.error e) r2).result = r2 ∧
    (webWriteRetry st lo1 lo2 (.error e) r2).markedLoggedOut = true ∧
    (webWriteRetry st lo1 lo2 (.error e) r2).reloginRan = true ∧
    (webWriteRetry st lo1 lo2 (.error e) r2).finalState.loggedIn = true := by
  rcases hP : ensureLoggedIn st lo1 with ⟨res1, ran1⟩
  rw [hP] at h1
  simp only at h1
  subst h1
  rcases hQ : ensureLoggedIn { loggedIn := false } lo2 with ⟨res2, ran2⟩
  rw [hQ] at h3
  simp only at h3
  subst h3
  have hran2 : ran2 = true := by
    have := ensureLoggedIn_ran_of_loggedOut lo2
    rw [hQ] at this
    simpa using this
  subst hran2
  simp [webWriteRetry, hP, hQ, h2]

end LiteTracker

namespace LiteTracker

/-! ## `addOwner` (webclient.go, claim C5) -/

/-- The owner-collection loop of `addOwner`: walk the story's current owners;
`none` means the target user was found (early return of the unchanged list),
otherwise the accumulated `owner_ids` payload ending in the new owner id. -/
def collectOwnerIds (owners : List StoryOwnerM) (ownerID : Int) :
    Option (List Int) :=
  match owners with
  | [] => some [ownerID]
  | o :: rest =>
    if o.userId == ownerID then none
    else (collectOwnerIds rest ownerID).map (fun ids => o.userId :: ids)

/-- Result of one `addOwner` call: the returned value and, when a mutating
`PUT` was issued, its `owner_ids` payload. -/
structure AddOwnerOutcome where
  result : Except String (List StoryOwnerM)
  putPayload : Option (List Int)
  deriving Repr

/-- `addOwner` from webclient.go: re-read the story via the token-auth read
client (`GetStory`, modelled by the `fetchStory` oracle); if the user already
owns the story return the current owner list without any mutating request;
otherwise `PUT` the full replacement owner list (modelled by `put`). -/
def addOwner (fetchStory : Except String Story)
    (put : List Int → Except String (List StoryOwnerM)) (ownerID : Int) :
    AddOwnerOutcome :=
  match fetchStory with
  | .error e => { result := .error ("fetch story owners: " ++ e), putPayload := none }
  | .ok story =>
    match collectOwnerIds story.owners ownerID with
    | none => { result := .ok story.owners, putPayload := none }
    | some ids => { result := put ids, putPayload := some ids }

theorem collectOwnerIds_of_mem (owners : List StoryOwnerM) (oid : Int)
    (h : oid ∈ owners.map StoryOwnerM.userId) :
    collectOwnerIds owners oid = none := by
  induction owners with
  | nil => cases h
  | cons o rest ih =>
    rw [List.map_cons, List.mem_cons] at h
    unfold collectOwnerIds
    by_cases ho : o.userId = oid
    · rw [if_pos (by simpa using ho)]
    · rcases h with h | h
      · exact absurd h.symm ho
      · rw [if_neg (by simpa using ho), ih h]
        rfl

theorem collectOwnerIds_of_not_mem (owners : List StoryOwnerM) (oid : Int)
    (h : oid ∉ owners.map StoryOwnerM.userId) :
    collectOwnerIds owners oid = some (owners.map StoryOwnerM.userId ++ [oid]) := by
  induction owners with
  | nil => rfl
  | cons o rest ih =>
    rw [List.map_cons, List.mem_cons] at h
    push_neg at h
    unfold collectOwnerIds
    rw [if_neg (by simpa using fun e => h.1 e.symm), ih h.2]
    rfl

/-- **C5.**  `addOwner` with a user id already present in the story's current
owner list (as re-read from the read client) returns that list unchanged and
issues no mutating request; otherwise it issues a full owner-list replace
whose payload is the current owner ids with the new id appended. -/
theorem c5_addOwner_idempotent (fetchStory : Except String Story)
    (put : List Int → Except String (List StoryOwnerM)) (ownerID : Int)
    (story : Story) (hf : fetchStory = .ok story) :
    (ownerID ∈ story.owners.map StoryOwnerM.userId →
      addOwner fetchStory put ownerID =
        { result := .ok story.owners, putPayload := none })
    ∧ (ownerID ∉ story.owners.map StoryOwnerM.userId →
      (addOwner fetchStory put ownerID).putPayload =
        some (story.owners.map StoryOwnerM.userId ++ [ownerID])) := by
  subst hf
  constructor
  · intro hmem
    simp [addOwner, collectOwnerIds_of_mem story.owners ownerID hmem]
  · intro hnot
    simp [addOwner, collectOwnerIds_of_not_mem story.owners ownerID hnot]

/-- A story whose owner list already contains user 7 (C5 witness). -/
def c5Story : Story :=
  { id := 3, title := "s", description := "", storyType := "feature",
    currentState := "started", estimate := none, storyPriority := "",
    labelNames := [],
    owners := [{ id := 100, userId := 7, name := "Ann", initials := "A" }],
    requestedById := none, url := "", createdAt := "", updatedAt := "" }

/-- Witness for C5: adding the already-present owner 7 is a no-op without a
mutating request. -/
theorem c5_addOwner_idempotent_witness :
    addOwner (.ok c5Story) (fun _ => .error "unused") 7 =
      { result := .ok c5Story.owners, putPayload := none } :=
  (c5_addOwner_idempotent (.ok c5Story) (fun _ => .error "unused") 7 c5Story
    rfl).1 (by decide)

/-- **C6.**  For each wrapped write (`WebPostComment`, `WebAddLabel`,
`WebAddOwner`): when the entry login succeeds and the first attempt fails
with a message containing `"401"` or `"sign in"`, the client is marked
unauthenticated, re-login runs, and the operation is retried exactly once
(two attempts total); the second attempt's outcome is returned unmodified —
in particular a successful retry returns the success result with the session
left authenticated. -/
theorem c6_session_expiry_retry :
    (∀ (st : WebState) (lo1 lo2 : LoginOutcome) (e : String)
      (r2 : Except String ApiComment),
      (ensureLoggedIn st lo1).1 = .ok { loggedIn := true } →
      sessionExpiryError e = true →
      (ensureLoggedIn { loggedIn := false } lo2).1 = .ok { loggedIn := true } →
      (WebPostComment st lo1 lo2 (.error e) r2).opAttempts = 2 ∧
      (WebPostComment st lo1 lo2 (.error e) r2).result = r2 ∧
      (WebPostComment st lo1 lo2 (.error e) r2).markedLoggedOut = true ∧
      (WebPostComment st lo1 lo2 (.error e) r2).reloginRan = true ∧
      (WebPostComment st lo1 lo2 (.error e) r2).finalState.loggedIn = true)
    ∧ (∀ (st : WebState) (lo1 lo2 : LoginOutcome) (e : String)
      (r2 : Except String LabelM),
      (ensureLoggedIn st lo1).1 = .ok { loggedIn := true } →
      sessionExpiryError e = true →
      (ensureLoggedIn { loggedIn := false } lo2).1 = .ok { loggedIn := true } →
      (WebAddLabel st lo1 lo2 (.error e) r2).opAttempts = 2 ∧
      (WebAddLabel st lo1 lo2 (.error e) r2).result = r2 ∧
      (WebAddLabel st lo1 lo2 (.error e) r2).markedLoggedOut = true ∧
      (WebAddLabel st lo1 lo2 (.error e) r2).reloginRan = true ∧
      (WebAddLabel st lo1 lo2 (.error e) r2).finalState.loggedIn = true)
    ∧ (∀ (st : WebState) (lo1 lo2 : LoginOutcome) (e : String)
      (r2 : Except String (List StoryOwnerM)),
      (ensureLoggedIn st lo1).1 = .ok { loggedIn := true } →
      sessionExpiryError e = true →
      (ensureLoggedIn { loggedIn := false } lo2).1 = .ok { loggedIn := true } →
      (WebAddOwner st lo1 lo2 (.error e) r2).opAttempts = 2 ∧
      (WebAddOwner st lo1 lo2 (.error e) r2).result = r2 ∧
      (WebAddOwner st lo1 lo2 (.error e) r2).markedLoggedOut = true ∧
      (WebAddOwner st lo1 lo2 (.error e) r2).reloginRan = true ∧
      (WebAddOwner st lo1 lo2 (.error e) r2).finalState.loggedIn = true) :=
  ⟨fun st lo1 lo2 e r2 h1 h2 h3 => webWriteRetry_expiry st lo1 lo2 e r2 h1 h2 h3,
   fun st lo1 lo2 e r2 h1 h2 h3 => webWriteRetry_expiry st lo1 lo2 e r2 h1 h2 h3,
   fun st lo1 lo2 e r2 h1 h2 h3 => webWriteRetry_expiry st lo1 lo2 e r2 h1 h2 h3⟩

/-- The comment returned by the successful retry in the C6 witness. -/
def c6Comment : ApiComment :=
  { id := 42, text := "hello", personId := 7, personName := some "Ann",
    createdAt := "" }

/-- Witness for C6: a 401 first attempt followed by a successful retry makes
`WebPostComment` succeed with the session authenticated. -/
theorem c6_session_expiry_retry_witness :
    (WebPostComment { loggedIn := false } .success .success
        (.error "post comment failed (status 401): expired")
        (.ok c6Comment)).opAttempts = 2 ∧
    (WebPostComment { loggedIn := false } .success .success
        (.error "post comment failed (status 401): expired")
        (.ok c6Comment)).result = .ok c6Comment ∧
    (WebPostComment { loggedIn := false } .success .success
        (.error "post comment failed (status 401): expired")
        (.ok c6Comment)).markedLoggedOut = true ∧
    (WebPostComment { loggedIn := false } .success .success
        (.error "post comment failed (status 401): expired")
        (.ok c6Comment)).reloginRan = true ∧
    (WebPostComment { loggedIn := false } .success .success
        (.error "post comment failed (status 401): expired")
        (.ok c6Comment)).finalState.loggedIn = true :=
  c6_session_expiry_retry.1 { loggedIn := false } .success .success
    "post comment failed (status 401): expired" (.ok c6Comment)
    rfl (by decide) rfl

end LiteTracker

namespace LiteTracker

/-! ## `CreateSnapshot` (db.go, claim C7)

The file system is restricted to the three paths the function touches:
the live database file, the published snapshot path, and the temporary path
(`snapshot + ".tmp"`).  A file's content is either fully written (`whole`) or
partially written (`torn`).  A run's fallible steps (CHECKPOINT, ReadFile,
WriteFile — which may also be interrupted mid-copy — and the atomic Rename)
are oracles.  `CreateSnapshot` returns the list of file-system states after
each mutation step, in order, plus the call's result; an interrupted write
ends the trace at the torn-temp-file state. -/

/-- Content of a file at a path: fully or partially written. -/
inductive FileData where
  | whole (content : String)
  | torn (content : String)
  deriving DecidableEq, Repr

/-- The three paths `CreateSnapshot` touches. -/
structure SnapFS where
  dbFile : String
  snapFile : Option FileData
  tmpFile : Option FileData
  deriving DecidableEq, Repr

/-- Outcome of the `os.WriteFile` copy step. -/
inductive WriteStep where
  | ok
  | failed
  | interrupted
  deriving DecidableEq, Repr

/-- Oracle for one `CreateSnapshot` run. -/
structure SnapshotRun where
  checkpointOk : Bool
  readOk : Bool
  writeRes : WriteStep
  renameOk : Bool
  deriving DecidableEq, Repr

/-- `CreateSnapshot` from db.go: remove the stale temp file, CHECKPOINT,
read the database file, write it to the temp path, atomically rename the
temp path onto the snapshot path; on write/rename errors remove the temp
file. -/
def CreateSnapshot (fs : SnapFS) (run : SnapshotRun) :
    List SnapFS × Except String Unit :=
  let fs1 : SnapFS := { fs with tmpFile := none }
  if ¬ run.checkpointOk then ([fs1], .error "checkpoint") else
  if ¬ run.readOk then ([fs1], .error "read db") else
  match run.writeRes with
  | .interrupted =>
    ([fs1, { fs1 with tmpFile := some (.torn fs.dbFile) }], .error "interrupted")
  | .failed =>
    ([fs1, { fs1 with tmpFile := some (.torn fs.dbFile) },
      { fs1 with tmpFile := none }], .error "write tmp")
  | .ok =>
    let fs2 : SnapFS := { fs1 with tmpFile := some (.whole fs.dbFile) }
    if run.renameOk then
      ([fs1, fs2, { fs2 with snapFile := some (.whole fs.dbFile), tmpFile := none }],
        .ok ())
    else
      ([fs1, fs2, { fs2 with tmpFile := none }], .error "rename")

theorem createSnapshot_head (fs : SnapFS) (run : SnapshotRun) :
    (CreateSnapshot fs run).1.head? = some { fs with tmpFile := none } := by
  obtain ⟨cp, rd, wr, rn⟩ := run
  cases cp <;> cases rd <;> cases wr <;> cases rn <;> rfl

theorem createSnapshot_trace_snap (fs : SnapFS) (run : SnapshotRun) :
    ∀ s ∈ (CreateSnapshot fs run).1,
      s.snapFile = fs.snapFile ∨ s.snapFile = some (FileData.whole fs.dbFile) := by
  obtain ⟨cp, rd, wr, rn⟩ := run
  cases cp <;> cases rd <;> cases wr <;> cases rn <;>
    · intro s hs
      fin_cases hs <;> simp [CreateSnapshot]

theorem createSnapshot_error_snap (fs : SnapFS) (run : SnapshotRun) :
    ∀ e, (CreateSnapshot fs run).2 = .error e →
      ∀ s ∈ (CreateSnapshot fs run).1, s.snapFile = fs.snapFile := by
  obtain ⟨cp, rd, wr, rn⟩ := run
  cases cp <;> cases rd <;> cases wr <;> cases rn <;>
    · intro e he s hs
      fin_cases hs <;> simp [CreateSnapshot] <;> simp [CreateSnapshot] at he

theorem createSnapshot_ok_last (fs : SnapFS) (run : SnapshotRun) :
    (CreateSnapshot fs run).2 = .ok () →
      ∃ s, (CreateSnapshot fs run).1.getLast? = some s ∧
        s.snapFile = some (FileData.whole fs.dbFile) := by
  obtain ⟨cp, rd, wr, rn⟩ := run
  cases cp <;> cases rd <;> cases wr <;> cases rn <;>
    · intro he
      first
      | (simp [CreateSnapshot] at he; exact ⟨_, rfl, rfl⟩)
      | simp [CreateSnapshot] at he

/-- **C7.**  `CreateSnapshot` first removes any stale temp file; at every
point of the run the published snapshot path holds either the prior content
or the new complete copy — never a torn file (given the prior snapshot was
complete); on any failure (including an interruption mid-copy) the snapshot
path still holds the prior content; and on success it ends as the complete
copy of the database file. -/
theorem c7_snapshot_atomic (fs : SnapFS) (run : SnapshotRun)
    (hsnap : ∀ d, fs.snapFile = some d → ∃ c, d = FileData.whole c) :
    (CreateSnapshot fs run).1.head? = some { fs with tmpFile := none } ∧
    (∀ s ∈ (CreateSnapshot fs run).1, ∀ d, s.snapFile = some d →
      ∃ c, d = FileData.whole c) ∧
    (∀ e, (CreateSnapshot fs run).2 = .error e →
      ∀ s ∈ (CreateSnapshot fs run).1, s.snapFile = fs.snapFile) ∧
    ((CreateSnapshot fs run).2 = .ok () →
      ∃ s, (CreateSnapshot fs run).1.getLast? = some s ∧
        s.snapFile = some (FileData.whole fs.dbFile)) := by
  refine ⟨createSnapshot_head fs run, ?_, createSnapshot_error_snap fs run,
    createSnapshot_ok_last fs run⟩
  intro s hs d hd
  rcases createSnapshot_trace_snap fs run s hs with h | h
  · exact hsnap d (h ▸ hd)
  · rw [h] at hd
    exact ⟨fs.dbFile, (Option.some.inj hd).symm⟩

/-- File system of the C7 witness: a complete prior snapshot, a stale junk
temp file, new database content. -/
def c7FS : SnapFS :=
  { dbFile := "new", snapFile := some (.whole "old"),
    tmpFile := some (.torn "junk") }

/-- A run interrupted in the middle of the temp-file copy. -/
def c7Run : SnapshotRun :=
  { checkpointOk := true, readOk := true, writeRes := .interrupted,
    renameOk := true }

/-- Witness for C7 at a concrete interrupted run. -/
theorem c7_snapshot_atomic_witness :
    (CreateSnapshot c7FS c7Run).1.head? = some { c7FS with tmpFile := none } ∧
    (∀ s ∈ (CreateSnapshot c7FS c7Run).1, ∀ d, s.snapFile = some d →
      ∃ c, d = FileData.whole c) ∧
    (∀ e, (CreateSnapshot c7FS c7Run).2 = .error e →
      ∀ s ∈ (CreateSnapshot c7FS c7Run).1, s.snapFile = c7FS.snapFile) ∧
    ((CreateSnapshot c7FS c7Run).2 = .ok () →
      ∃ s, (CreateSnapshot c7FS c7Run).1.getLast? = some s ∧
        s.snapFile = some (FileData.whole c7FS.dbFile)) :=
  c7_snapshot_atomic c7FS c7Run
    (fun d hd => ⟨"old", (Option.some.inj hd).symm⟩)

end LiteTracker

namespace LiteTracker

/-! ## Facts about the `ParseApiDate` scanner (claim C8) -/

theorem spanP_append (p : Char → Bool) :
    ∀ (a b : List Char), (∀ c ∈ a, p c = true) →
      (b = [] ∨ ∃ c cs, b = c :: cs ∧ p c = false) →
      spanP p (a ++ b) = (a, b) := by
  intro a
  induction a with
  | nil =>
    intro b _ hb
    rcases hb with rfl | ⟨c, cs, rfl, hc⟩
    · rfl
    · simp [spanP, hc]
  | cons x xs ih =>
    intro b ha hb
    have hx : p x = true := ha x (List.mem_cons_self x xs)
    have hxs := ih b (fun c hc => ha c (List.mem_cons_of_mem x hc)) hb
    simp [spanP, hx, hxs]

theorem spanP_sound (p : Char → Bool) :
    ∀ (l a b : List Char), spanP p l = (a, b) →
      l = a ++ b ∧ (∀ c ∈ a, p c = true) ∧
        (b = [] ∨ ∃ c cs, b = c :: cs ∧ p c = false) := by
  intro l
  induction l with
  | nil =>
    intro a b h
    simp only [spanP, Prod.mk.injEq] at h
    obtain ⟨h1, h2⟩ := h
    subst h1
    subst h2
    exact ⟨rfl, by simp, Or.inl rfl⟩
  | cons x xs ih =>
    intro a b h
    unfold spanP at h
    by_cases hx : p x = true
    · rw [if_pos hx] at h
      rcases hxs : spanP p xs with ⟨a', b'⟩
      rw [hxs] at h
      simp only [Prod.mk.injEq] at h
      obtain ⟨h1, h2⟩ := h
      subst h1
      subst h2
      obtain ⟨hl, hall, hstop⟩ := ih a' b' hxs
      refine ⟨by simp [hl], ?_, hstop⟩
      intro c hc
      rcases List.mem_cons.mp hc with rfl | hc
      · exact hx
      · exact hall c hc
    · rw [if_neg hx] at h
      simp only [Prod.mk.injEq] at h
      obtain ⟨h1, h2⟩ := h
      subst h1
      subst h2
      exact ⟨by simp, by simp, Or.inr ⟨x, xs, rfl, by simpa using hx⟩⟩

theorem space_not_digit (c : Char) (h : isGoSpace c = true) :
    isDigitChar c = false := by
  unfold isGoSpace at h
  simp only [Bool.or_eq_true, decide_eq_true_eq] at h
  rcases h with ((((h | h) | h) | h) | h) <;> subst h <;> decide

theorem space_not_word (c : Char) (h : isGoSpace c = true) :
    isWordChar c = false := by
  unfold isGoSpace at h
  simp only [Bool.or_eq_true, decide_eq_true_eq] at h
  rcases h with ((((h | h) | h) | h) | h) <;> subst h <;> decide

theorem digit_not_space (c : Char) (h : isDigitChar c = true) :
    isGoSpace c = false := by
  cases hs : isGoSpace c
  · rfl
  · rw [space_not_digit c hs] at h
    cases h

theorem word_not_space (c : Char) (h : isWordChar c = true) :
    isGoSpace c = false := by
  cases hs : isGoSpace c
  · rfl
  · rw [space_not_word c hs] at h
    cases h

theorem digit_ne_space (c : Char) (h : isDigitChar c = true) : ¬ c = ' ' := by
  intro he
  subst he
  cases h

theorem monthNum_shape (m mn : List Char) (h : monthNum m = some mn) :
    m.length = 3 ∧ (∀ c ∈ m, isWordChar c = true) ∧
      (∀ c ∈ mn, isDigitChar c = true) := by
  unfold monthNum at h
  rcases hfind : monthTable.find? (fun p => p.1 == m) with _ | p
  · rw [hfind] at h
    cases h
  · rw [hfind] at h
    obtain rfl := Option.some.inj h
    have hp : p ∈ monthTable := List.mem_of_find?_eq_some hfind
    have hm' : p.1 = m := by simpa using List.find?_some hfind
    subst hm'
    fin_cases hp <;> decide

theorem digitChar_is_digit (d : Nat) (h : d < 10) :
    isDigitChar (Char.ofNat (48 + d)) = true := by
  interval_cases d <;> decide

theorem natDigitsAux_digits :
    ∀ (fuel n : Nat) (acc : List Char), (∀ c ∈ acc, isDigitChar c = true) →
      ∀ c ∈ natDigitsAux fuel n acc, isDigitChar c = true := by
  intro fuel
  induction fuel with
  | zero => intro n acc hacc c hc; exact hacc c hc
  | succ fuel ih =>
    intro n acc hacc c hc
    unfold natDigitsAux at hc
    by_cases hn : n < 10
    · rw [if_pos hn] at hc
      rcases List.mem_cons.mp hc with rfl | hc
      · exact digitChar_is_digit n hn
      · exact hacc c hc
    · rw [if_neg hn] at hc
      refine ih (n / 10) _ ?_ c hc
      intro c' hc'
      rcases List.mem_cons.mp hc' with rfl | hc'
      · exact digitChar_is_digit (n % 10) (Nat.mod_lt n (by omega))
      · exact hacc c' hc'

theorem natDigits_digits (n : Nat) :
    ∀ c ∈ natDigits n, isDigitChar c = true :=
  natDigitsAux_digits (n + 1) n [] (by simp)

theorem no_space_append (A B : List Char) (hA : ∀ c ∈ A, ¬ c = ' ')
    (hB : ∀ c ∈ B, ¬ c = ' ') : ∀ c ∈ A ++ B, ¬ c = ' ' := by
  intro c hc
  rcases List.mem_append.mp hc with hc | hc
  · exact hA c hc
  · exact hB c hc

theorem digits_no_space (l : List Char) (h : ∀ c ∈ l, isDigitChar c = true) :
    ∀ c ∈ l, ¬ c = ' ' :=
  fun c hc => digit_ne_space c (h c hc)

theorem replaceSpaceT_no_space :
    ∀ l : List Char, (∀ c ∈ l, ¬ c = ' ') → replaceSpaceT l = l := by
  intro l
  induction l with
  | nil => intro _; rfl
  | cons c rest ih =>
    intro h
    cases rest with
    | nil => rfl
    | cons c2 r2 =>
      unfold replaceSpaceT
      rw [if_neg (fun hand => h c (List.mem_cons_self _ _) hand.1)]
      rw [ih (fun x hx => h x (List.mem_cons_of_mem c hx))]

theorem replaceSpaceT_eq (A B : List Char) (hA : ∀ c ∈ A, ¬ c = ' ')
    (hB : ∀ c ∈ B, ¬ c = ' ') :
    replaceSpaceT (A ++ ' ' :: 'T' :: B) = A ++ 'T' :: B := by
  induction A with
  | nil =>
    simp only [List.nil_append]
    unfold replaceSpaceT
    rw [if_pos ⟨rfl, rfl⟩, replaceSpaceT_no_space B hB]
  | cons a A' ih =>
    have ha : ¬ a = ' ' := hA a (List.mem_cons_self a A')
    have hA' : ∀ c ∈ A', ¬ c = ' ' := fun c hc => hA c (List.mem_cons_of_mem a hc)
    cases A' with
    | nil =>
      simp only [List.nil_append, List.cons_append]
      unfold replaceSpaceT
      rw [if_neg (fun hand => ha hand.1)]
      have h0 := ih hA'
      simp only [List.nil_append] at h0
      rw [h0]
    | cons a2 A'' =>
      simp only [List.cons_append] at ih ⊢
      unfold replaceSpaceT
      rw [if_neg (fun hand => ha hand.1)]
      rw [ih hA']

end LiteTracker

namespace LiteTracker

/-- The stop character after a spanned segment: the next segment is non-empty
and drawn from a class `q` disjoint from the spanned class `p`. -/
theorem stop_head {p q : Char → Bool} (hpq : ∀ c, q c = true → p c = false)
    (x y : List Char) (hx : ¬ x = []) (hq : ∀ c ∈ x, q c = true) :
    ∃ c cs, x ++ y = c :: cs ∧ p c = false := by
  cases x with
  | nil => exact absurd rfl hx
  | cons c t => exact ⟨c, t ++ y, rfl, hpq c (hq c (List.mem_cons_self c t))⟩

/-- The components of a text in the claim's format
`"DD Mon YYYY, HH:MMAM/PM"`, whitespace runs included. -/
structure ApiDateInput where
  day : List Char
  sp1 : List Char
  mon : List Char
  sp2 : List Char
  year : List Char
  sp3 : List Char
  hour : List Char
  minute : List Char
  pm : Bool

/-- The text `"DD Mon YYYY, HH:MMAM/PM"` built from components. -/
def renderApiDate (i : ApiDateInput) : List Char :=
  i.day ++ i.sp1 ++ i.mon ++ i.sp2 ++ i.year ++ ',' :: i.sp3 ++ i.hour ++
    ':' :: i.minute ++ (if i.pm then ['P', 'M'] else ['A', 'M'])

/-- The claim's format: 1–2 digit day, known 3-letter month, 4-digit year,
1–2 digit hour, 2-digit minute, AM/PM, single-or-more whitespace gaps. -/
def validApiDate (i : ApiDateInput) : Prop :=
  (∀ c ∈ i.day, isDigitChar c = true) ∧ 1 ≤ i.day.length ∧ i.day.length ≤ 2 ∧
  (∀ c ∈ i.sp1, isGoSpace c = true) ∧ ¬ i.sp1 = [] ∧
  (∀ c ∈ i.mon, isWordChar c = true) ∧ i.mon.length = 3 ∧
  (∀ c ∈ i.sp2, isGoSpace c = true) ∧ ¬ i.sp2 = [] ∧
  (∀ c ∈ i.year, isDigitChar c = true) ∧ i.year.length = 4 ∧
  (∀ c ∈ i.sp3, isGoSpace c = true) ∧ ¬ i.sp3 = [] ∧
  (∀ c ∈ i.hour, isDigitChar c = true) ∧ 1 ≤ i.hour.length ∧ i.hour.length ≤ 2 ∧
  (∀ c ∈ i.minute, isDigitChar c = true) ∧ i.minute.length = 2 ∧
  (monthNum i.mon).isSome = true

/-- The claim's 12-hour to 24-hour conversion: 12AM maps to 0, 12PM stays 12,
other PM hours add 12, other AM hours are unchanged. -/
def hour24 (h : Nat) (pm : Bool) : Nat :=
  if pm then (if h = 12 then 12 else h + 12) else (if h = 12 then 0 else h)

/-- The claim's zero-padding of a single-digit day. -/
def specPadDay (day : List Char) : List Char :=
  if day.length = 1 then '0' :: day else day

/-- The normalized ISO timestamp the claim describes for a valid input. -/
def specIso (i : ApiDateInput) : String :=
  (i.year ++ '-' :: (monthNum i.mon).getD [] ++ '-' :: specPadDay i.day ++
    'T' :: pad2d (hour24 (atoiL i.hour) i.pm) ++ ':' :: i.minute ++
    (":00.000Z".toList)).asString

theorem parseFields_render (i : ApiDateInput) (hv : validApiDate i) :
    parseFields (renderApiDate i) =
      some ⟨i.day, i.mon, i.year, i.hour, i.minute, i.pm⟩ := by
  obtain ⟨hday, hdl1, hdl2, hsp1, hsp1n, hmon, hml, hsp2, hsp2n, hyear, hyl,
    hsp3, hsp3n, hhour, hhl1, hhl2, hminute, hminl, hmnS⟩ := hv
  have hmon_ne : ¬ i.mon = [] := by intro h; rw [h] at hml; cases hml
  have hyear_ne : ¬ i.year = [] := by intro h; rw [h] at hyl; cases hyl
  have hhour_ne : ¬ i.hour = [] := by
    intro h; rw [h] at hhl1; exact absurd hhl1 (by decide)
  have S1 : ∀ y, spanP isDigitChar (i.day ++ (i.sp1 ++ y)) = (i.day, i.sp1 ++ y) :=
    fun y => spanP_append _ _ _ hday
      (Or.inr (stop_head space_not_digit i.sp1 y hsp1n hsp1))
  have S2 : ∀ y, spanP isGoSpace (i.sp1 ++ (i.mon ++ y)) = (i.sp1, i.mon ++ y) :=
    fun y => spanP_append _ _ _ hsp1
      (Or.inr (stop_head word_not_space i.mon y hmon_ne hmon))
  have S3 : ∀ y, spanP isWordChar (i.mon ++ (i.sp2 ++ y)) = (i.mon, i.sp2 ++ y) :=
    fun y => spanP_append _ _ _ hmon
      (Or.inr (stop_head space_not_word i.sp2 y hsp2n hsp2))
  have S4 : ∀ y, spanP isGoSpace (i.sp2 ++ (i.year ++ y)) = (i.sp2, i.year ++ y) :=
    fun y => spanP_append _ _ _ hsp2
      (Or.inr (stop_head digit_not_space i.year y hyear_ne hyear))
  have S5 : ∀ y, spanP isDigitChar (i.year ++ (',' :: y)) = (i.year, ',' :: y) :=
    fun y => spanP_append _ _ _ hyear (Or.inr ⟨',', y, rfl, by decide⟩)
  have S6 : ∀ y, spanP isGoSpace (i.sp3 ++ (i.hour ++ y)) = (i.sp3, i.hour ++ y) :=
    fun y => spanP_append _ _ _ hsp3
      (Or.inr (stop_head digit_not_space i.hour y hhour_ne hhour))
  have S7 : ∀ y, spanP isDigitChar (i.hour ++ (':' :: y)) = (i.hour, ':' :: y) :=
    fun y => spanP_append _ _ _ hhour (Or.inr ⟨':', y, rfl, by decide⟩)
  cases hpm : i.pm
  · have S8 : spanP isDigitChar (i.minute ++ ['A', 'M']) = (i.minute, ['A', 'M']) :=
      spanP_append _ _ _ hminute (Or.inr ⟨'A', ['M'], rfl, by decide⟩)
    simp only [renderApiDate, hpm, if_false, Bool.false_eq_true,
      List.append_assoc, List.cons_append, parseFields,
      S1, S2, S3, S4, S5, S6, S7, S8, hdl1, hdl2, hsp1n, hml, hsp2n, hyl,
      hsp3n, hhl1, hhl2, hminl, and_self, not_false_iff, if_true]
  · have S8 : spanP isDigitChar (i.minute ++ ['P', 'M']) = (i.minute, ['P', 'M']) :=
      spanP_append _ _ _ hminute (Or.inr ⟨'P', ['M'], rfl, by decide⟩)
    have hPA : ¬ (['P', 'M'] : List Char) = ['A', 'M'] := by decide
    simp only [renderApiDate, hpm, eq_self_iff_true, if_true]
    simp only [List.append_assoc, List.cons_append, parseFields,
      S1, S2, S3, S4, S5, S6, S7, S8, hdl1, hdl2, hsp1n, hml, hsp2n, hyl,
      hsp3n, hhl1, hhl2, hminl, hPA, and_self, not_false_iff, if_true, if_false]

end LiteTracker

namespace LiteTracker

theorem parseFields_sound (cs : List Char) (f : DateFields)
    (h : parseFields cs = some f) :
    ∃ sp1 sp2 sp3 : List Char,
      cs = f.day ++ sp1 ++ f.mon ++ sp2 ++ f.year ++ ',' :: sp3 ++ f.hour ++
        ':' :: f.minute ++ (if f.pm then ['P', 'M'] else ['A', 'M']) ∧
      (∀ c ∈ f.day, isDigitChar c = true) ∧ 1 ≤ f.day.length ∧ f.day.length ≤ 2 ∧
      (∀ c ∈ sp1, isGoSpace c = true) ∧ ¬ sp1 = [] ∧
      (∀ c ∈ f.mon, isWordChar c = true) ∧ f.mon.length = 3 ∧
      (∀ c ∈ sp2, isGoSpace c = true) ∧ ¬ sp2 = [] ∧
      (∀ c ∈ f.year, isDigitChar c = true) ∧ f.year.length = 4 ∧
      (∀ c ∈ sp3, isGoSpace c = true) ∧ ¬ sp3 = [] ∧
      (∀ c ∈ f.hour, isDigitChar c = true) ∧ 1 ≤ f.hour.length ∧
        f.hour.length ≤ 2 ∧
      (∀ c ∈ f.minute, isDigitChar c = true) ∧ f.minute.length = 2 := by
  unfold parseFields at h
  rcases h1 : spanP isDigitChar cs with ⟨day, r1⟩
  rw [h1] at h
  dsimp only at h
  obtain ⟨hcs, hday, _⟩ := spanP_sound isDigitChar cs day r1 h1
  by_cases hld : 1 ≤ day.length ∧ day.length ≤ 2
  case neg => rw [if_neg hld] at h; exact Option.noConfusion h
  rw [if_pos hld] at h
  rcases h2 : spanP isGoSpace r1 with ⟨sp1, r2⟩
  rw [h2] at h
  dsimp only at h
  obtain ⟨hr1, hsp1, _⟩ := spanP_sound isGoSpace r1 sp1 r2 h2
  by_cases hs1 : ¬ sp1 = []
  case neg => rw [if_neg hs1] at h; exact Option.noConfusion h
  rw [if_pos hs1] at h
  rcases h3 : spanP isWordChar r2 with ⟨mon, r3⟩
  rw [h3] at h
  dsimp only at h
  obtain ⟨hr2, hmon, _⟩ := spanP_sound isWordChar r2 mon r3 h3
  by_cases hml : mon.length = 3
  case neg => rw [if_neg hml] at h; exact Option.noConfusion h
  rw [if_pos hml] at h
  rcases h4 : spanP isGoSpace r3 with ⟨sp2, r4⟩
  rw [h4] at h
  dsimp only at h
  obtain ⟨hr3, hsp2, _⟩ := spanP_sound isGoSpace r3 sp2 r4 h4
  by_cases hs2 : ¬ sp2 = []
  case neg => rw [if_neg hs2] at h; exact Option.noConfusion h
  rw [if_pos hs2] at h
  rcases h5 : spanP isDigitChar r4 with ⟨year, r5⟩
  rw [h5] at h
  dsimp only at h
  obtain ⟨hr4, hyear, _⟩ := spanP_sound isDigitChar r4 year r5 h5
  by_cases hyl : year.length = 4
  case neg => rw [if_neg hyl] at h; exact Option.noConfusion h
  rw [if_pos hyl] at h
  rcases r5 with _ | ⟨cc, r6⟩
  · exact Option.noConfusion h
  dsimp only at h
  by_cases hcc : cc = ','
  case neg => rw [if_neg hcc] at h; exact Option.noConfusion h
  rw [if_pos hcc] at h
  subst hcc
  rcases h6 : spanP isGoSpace r6 with ⟨sp3, r7⟩
  rw [h6] at h
  dsimp only at h
  obtain ⟨hr6, hsp3, _⟩ := spanP_sound isGoSpace r6 sp3 r7 h6
  by_cases hs3 : ¬ sp3 = []
  case neg => rw [if_neg hs3] at h; exact Option.noConfusion h
  rw [if_pos hs3] at h
  rcases h7 : spanP isDigitChar r7 with ⟨hourL, r8⟩
  rw [h7] at h
  dsimp only at h
  obtain ⟨hr7, hhour, _⟩ := spanP_sound isDigitChar r7 hourL r8 h7
  by_cases hhl : 1 ≤ hourL.length ∧ hourL.length ≤ 2
  case neg => rw [if_neg hhl] at h; exact Option.noConfusion h
  rw [if_pos hhl] at h
  rcases r8 with _ | ⟨cd, r9⟩
  · exact Option.noConfusion h
  dsimp only at h
  by_cases hcd : cd = ':'
  case neg => rw [if_neg hcd] at h; exact Option.noConfusion h
  rw [if_pos hcd] at h
  subst hcd
  rcases h8 : spanP isDigitChar r9 with ⟨minL, r10⟩
  rw [h8] at h
  dsimp only at h
  obtain ⟨hr9, hminute, _⟩ := spanP_sound isDigitChar r9 minL r10 h8
  by_cases hmin : minL.length = 2
  case neg => rw [if_neg hmin] at h; exact Option.noConfusion h
  rw [if_pos hmin] at h
  by_cases hAM : r10 = ['A', 'M']
  · rw [if_pos hAM] at h
    obtain rfl := Option.some.inj h
    subst hAM
    refine ⟨sp1, sp2, sp3, ?_, hday, hld.1, hld.2, hsp1, hs1, hmon, hml,
      hsp2, hs2, hyear, hyl, hsp3, hs3, hhour, hhl.1, hhl.2, hminute, hmin⟩
    subst hcs hr1 hr2 hr3 hr4 hr6 hr7 hr9
    simp [List.append_assoc]
  · rw [if_neg hAM] at h
    by_cases hPM : r10 = ['P', 'M']
    · rw [if_pos hPM] at h
      obtain rfl := Option.some.inj h
      subst hPM
      refine ⟨sp1, sp2, sp3, ?_, hday, hld.1, hld.2, hsp1, hs1, hmon, hml,
        hsp2, hs2, hyear, hyl, hsp3, hs3, hhour, hhl.1, hhl.2, hminute, hmin⟩
      subst hcs hr1 hr2 hr3 hr4 hr6 hr7 hr9
      simp [List.append_assoc]
    · rw [if_neg hPM] at h
      exact Option.noConfusion h

end LiteTracker

namespace LiteTracker

theorem codeHour24_eq_hour24 (h0 : Nat) (pm : Bool) :
    codeHour24 h0 pm = hour24 h0 pm := by
  cases pm <;> by_cases h : h0 = 12 <;> simp [codeHour24, hour24, h]

theorem pad2s_eq_specPadDay (day : List Char) (h1 : 1 ≤ day.length)
    (h2 : day.length ≤ 2) : pad2s day = specPadDay day := by
  unfold pad2s specPadDay
  by_cases h : day.length = 1
  · rw [if_pos h, h]
    rfl
  · have h22 : day.length = 2 := by omega
    rw [if_neg h, h22]
    rfl

theorem codeBuild_eq_specIso (i : ApiDateInput) (mn : List Char)
    (hmn : monthNum i.mon = some mn)
    (hday : ∀ c ∈ i.day, isDigitChar c = true)
    (hdl1 : 1 ≤ i.day.length) (hdl2 : i.day.length ≤ 2)
    (hyear : ∀ c ∈ i.year, isDigitChar c = true)
    (hminute : ∀ c ∈ i.minute, isDigitChar c = true) :
    (replaceSpaceT (i.year ++ '-' :: mn ++ '-' :: pad2s i.day ++ ' ' :: 'T' ::
        pad2d (codeHour24 (atoiL i.hour) i.pm) ++ ':' :: i.minute ++
        (":00.000Z".toList))).asString = specIso i := by
  obtain ⟨_, _, hmnDigits⟩ := monthNum_shape i.mon mn hmn
  have hZ : ∀ c ∈ (":00.000Z".toList : List Char), ¬ c = ' ' := by decide
  have hA : ∀ c ∈ i.year ++ '-' :: mn ++ '-' :: pad2s i.day, ¬ c = ' ' := by
    intro c hc
    rcases List.mem_append.mp hc with hc1 | hc2
    · rcases List.mem_append.mp hc1 with hy | hm2
      · exact digit_ne_space c (hyear c hy)
      · rcases List.mem_cons.mp hm2 with rfl | hm3
        · decide
        · exact digit_ne_space c (hmnDigits c hm3)
    · rcases List.mem_cons.mp hc2 with rfl | hp
      · decide
      · unfold pad2s at hp
        rcases List.mem_append.mp hp with hr | hd
        · have hc0 := List.eq_of_mem_replicate hr
          subst hc0
          decide
        · exact digit_ne_space c (hday c hd)
  have hB : ∀ n : Nat,
      ∀ c ∈ pad2d n ++ ':' :: i.minute ++ (":00.000Z".toList), ¬ c = ' ' := by
    intro n c hc
    rcases List.mem_append.mp hc with hc1 | hz
    · rcases List.mem_append.mp hc1 with hp | hm2
      · unfold pad2d at hp
        rcases List.mem_append.mp hp with hr | hd
        · have hc0 := List.eq_of_mem_replicate hr
          subst hc0
          decide
        · exact digit_ne_space c (natDigits_digits n c hd)
      · rcases List.mem_cons.mp hm2 with rfl | hm3
        · decide
        · exact digit_ne_space c (hminute c hm3)
    · exact hZ c hz
  have hsplit : ∀ n : Nat,
      replaceSpaceT (i.year ++ '-' :: mn ++ '-' :: pad2s i.day ++ ' ' :: 'T' ::
          pad2d n ++ ':' :: i.minute ++ (":00.000Z".toList)) =
        i.year ++ '-' :: mn ++ '-' :: pad2s i.day ++ 'T' ::
          pad2d n ++ ':' :: i.minute ++ (":00.000Z".toList) := by
    intro n
    have h0 := replaceSpaceT_eq (i.year ++ '-' :: mn ++ '-' :: pad2s i.day)
      (pad2d n ++ ':' :: i.minute ++ (":00.000Z".toList)) hA (hB n)
    simpa [List.append_assoc] using h0
  rw [hsplit, codeHour24_eq_hour24, pad2s_eq_specPadDay i.day hdl1 hdl2]
  unfold specIso
  rw [hmn]
  rfl

theorem ParseApiDate_render (i : ApiDateInput) (hv : validApiDate i) :
    ParseApiDate ((renderApiDate i).asString) = some (specIso i) := by
  have hv' := hv
  obtain ⟨hday, hdl1, hdl2, hsp1, hsp1n, hmon, hml, hsp2, hsp2n, hyear, hyl,
    hsp3, hsp3n, hhour, hhl1, hhl2, hminute, hminl, hmnS⟩ := hv'
  obtain ⟨mn, hmn⟩ := Option.isSome_iff_exists.mp hmnS
  have hday_ne : ¬ i.day = [] := by
    intro h; rw [h] at hdl1; exact absurd hdl1 (by decide)
  have hne : ¬ ((renderApiDate i).asString = "") := by
    intro hEq
    have hnil : renderApiDate i = [] := by
      have h0 := congrArg String.toList hEq
      simpa using h0
    unfold renderApiDate at hnil
    simp at hnil
  unfold ParseApiDate
  rw [if_neg hne]
  have htl : ((renderApiDate i).asString).toList = renderApiDate i := rfl
  rw [htl, parseFields_render i hv]
  dsimp only
  rw [hmn]
  dsimp only
  exact congrArg some (codeBuild_eq_specIso i mn hmn hday hdl1 hdl2 hyear hminute)

theorem ParseApiDate_sound (s out : String) (h : ParseApiDate s = some out) :
    ∃ i : ApiDateInput, validApiDate i ∧ s = (renderApiDate i).asString ∧
      out = specIso i := by
  unfold ParseApiDate at h
  by_cases hse : s = ""
  · rw [if_pos hse] at h; exact Option.noConfusion h
  rw [if_neg hse] at h
  rcases hpf : parseFields s.toList with _ | f
  · rw [hpf] at h; exact Option.noConfusion h
  rw [hpf] at h
  dsimp only at h
  rcases hmn : monthNum f.mon with _ | mn
  · rw [hmn] at h; exact Option.noConfusion h
  rw [hmn] at h
  dsimp only at h
  obtain ⟨sp1, sp2, sp3, hcs, hday, hdl1, hdl2, hsp1, hsp1n, hmon, hml, hsp2h,
    hsp2n, hyear, hyl, hsp3h, hsp3n, hhour, hhl1, hhl2, hminute, hminl⟩ :=
    parseFields_sound s.toList f hpf
  refine ⟨⟨f.day, sp1, f.mon, sp2, f.year, sp3, f.hour, f.minute, f.pm⟩,
    ⟨hday, hdl1, hdl2, hsp1, hsp1n, hmon, hml, hsp2h, hsp2n, hyear, hyl, hsp3h,
      hsp3n, hhour, hhl1, hhl2, hminute, hminl, by rw [hmn]; rfl⟩, ?_, ?_⟩
  · have hlist : s.toList =
        renderApiDate ⟨f.day, sp1, f.mon, sp2, f.year, sp3, f.hour, f.minute, f.pm⟩ := by
      rw [hcs]; rfl
    calc s = (s.toList).asString := rfl
      _ = _ := by rw [hlist]
  · have hout := Option.some.inj h
    have hcb := codeBuild_eq_specIso
      ⟨f.day, sp1, f.mon, sp2, f.year, sp3, f.hour, f.minute, f.pm⟩ mn hmn
      hday hdl1 hdl2 hyear hminute
    dsimp only at hcb
    rw [← hout]
    exact hcb

/-- **C8.**  `ParseApiDate` returns `none` for the empty string; for every
text in the claim's `"DD Mon YYYY, HH:MMAM/PM"` format (known month name,
1–2 digit day and hour, 2-digit minute) it returns exactly the normalized ISO
string with the claimed conversions (12AM→00, 12PM→12, PM adds 12,
single-digit days zero-padded); and every input on which it succeeds is of
that format (so any non-matching input yields `none`, stored as an absent
timestamp). -/
theorem c8_parseApiDate :
    ParseApiDate "" = none ∧
    (∀ i : ApiDateInput, validApiDate i →
      ParseApiDate ((renderApiDate i).asString) = some (specIso i)) ∧
    (∀ s out, ParseApiDate s = some out →
      ∃ i, validApiDate i ∧ s = (renderApiDate i).asString ∧ out = specIso i) :=
  ⟨rfl, ParseApiDate_render, ParseApiDate_sound⟩

instance (i : ApiDateInput) : Decidable (validApiDate i) := by
  unfold validApiDate
  infer_instance

/-- Components of the C8 witness text `"3 Feb 2026, 12:05AM"`. -/
def c8Input : ApiDateInput :=
  { day := ['3'], sp1 := [' '], mon := ['F', 'e', 'b'], sp2 := [' '],
    year := ['2', '0', '2', '6'], sp3 := [' '], hour := ['1', '2'],
    minute := ['0', '5'], pm := false }

/-- Witness for C8: the day is zero-padded and 12AM becomes hour 00. -/
theorem c8_parseApiDate_witness :
    ParseApiDate "3 Feb 2026, 12:05AM" = some "2026-02-03T00:05:00.000Z" := by
  have h := c8_parseApiDate.2.1 c8Input (by decide)
  have h1 : (renderApiDate c8Input).asString = "3 Feb 2026, 12:05AM" := by decide
  have h2 : specIso c8Input = "2026-02-03T00:05:00.000Z" := by decide
  rw [h1, h2] at h
  exact h

end LiteTracker

namespace LiteTracker

/-! ## Sync engine (internal/sync/sync.go, claims C9 and C10)

Network reads are oracles per project: `listStories` for one state filter
(`fetchAllStories` turns an error into nil, as the code logs and skips), and
`getComments` per story.  The database is the pair of tables from db.go. -/

/-- The configured identity (`config.C.UserID`, `config.C.Username`). -/
structure SyncConfig where
  userId : Int
  username : String

/-- The remote reads `syncProject` performs for one project. -/
structure SyncEnv where
  listStories : String → Except String (List Story)
  getComments : Int → Except String (List ApiComment)

/-- `fetchAllStories`: a failed state fetch is logged and yields nil. -/
def fetchAllStories (env : SyncEnv) (state : String) : List Story :=
  match env.listStories state with
  | .error _ => []
  | .ok ss => ss

/-- The fixed ordered state filters of `syncProject`. -/
def syncStates : List String :=
  ["started", "unstarted", "delivered", "accepted", "rejected"]

/-- The concatenated candidate set (`allStories`). -/
def gatherStories (env : SyncEnv) : List Story :=
  (syncStates.map (fetchAllStories env)).flatten

/-- `isMyStory`: the configured user id is among the story's owners. -/
def isMyStory (cfg : SyncConfig) (story : Story) : Bool :=
  story.owners.any (fun o => o.userId == cfg.userId)

/-- `mentionsUser`: case-insensitive containment of the configured username,
bare or `"@"`-prefixed, in non-empty comment text. -/
def mentionsUser (cfg : SyncConfig) (text : String) : Bool :=
  if text = "" then false
  else
    strContains (toLowerStr text) (toLowerStr cfg.username) ||
      strContains (toLowerStr text) ("@" ++ toLowerStr cfg.username)

/-- `syncStats`. -/
structure SyncStatsM where
  stories : Nat
  mine : Nat
  comments : Nat
  deriving DecidableEq, Repr

/-- The two tables of the local store. -/
structure DBState where
  stories : List StoryStored
  comments : List CommentStored
  deriving DecidableEq, Repr

/-- The `db.StoryRow` built in the story loop of `syncProject`. -/
def storyRowOf (projectID : Int) (isMine : Bool) (s : Story) : StoryRow :=
  { id := s.id, projectId := projectID, title := s.title,
    description := if ¬ s.description = "" then some s.description else none,
    storyType := if ¬ s.storyType = "" then some s.storyType else none,
    currentState := if ¬ s.currentState = "" then some s.currentState else none,
    estimate := s.estimate,
    priority := if ¬ s.storyPriority = "" then some s.storyPriority else none,
    url := if ¬ s.url = "" then some s.url else none,
    requestedById := s.requestedById,
    ownerNames :=
      if 0 < s.owners.length
      then some (String.intercalate ", " (s.owners.map StoryOwnerM.name)) else none,
    labelNames :=
      if 0 < s.labelNames.length
      then some (String.intercalate ", " s.labelNames) else none,
    isMine := isMine, mentionsMe := false,
    createdAt := s.createdAt, updatedAt := s.updatedAt }

/-- The `db.CommentRow` built in the comment loop of `syncProject`. -/
def commentRowOf (projectID storyID : Int) (mentions : Bool) (c : ApiComment) :
    CommentRow :=
  { id := c.id, storyId := storyID, projectId := projectID,
    text := if ¬ c.text = "" then some c.text else none,
    personId := if ¬ c.personId = 0 then some c.personId else none,
    personName :=
      match c.personName with
      | some n => if ¬ n = "" then some n else none
      | none => none,
    mentionsMe := mentions, createdAt := c.createdAt }

/-- One iteration of the story-upsert loop (counts upserted stories). -/
def syncStoryPhase (cfg : SyncConfig) (pid : Int) (now : String)
    (myIds : List Int) (acc : DBState × Nat) (s : Story) : DBState × Nat :=
  let row := storyRowOf pid (myIds.contains s.id) s
  ({ acc.1 with stories := UpsertStory acc.1.stories row now }, acc.2 + 1)

/-- One iteration of the comment loop: upsert the comment, and when it
mentions the user force the owning story's flag via `MarkStoryMentionsMe`. -/
def syncComment (cfg : SyncConfig) (pid storyID : Int) (now : String)
    (acc : DBState × Nat) (c : ApiComment) : DBState × Nat :=
  let mentions := mentionsUser cfg c.text
  let row := commentRowOf pid storyID mentions c
  let db1 := { acc.1 with comments := UpsertComment acc.1.comments row now }
  let db2 :=
    if mentions then { db1 with stories := MarkStoryMentionsMe db1.stories storyID }
    else db1
  (db2, acc.2 + 1)

/-- The per-story comment fetch and loop (fetch errors are skipped). -/
def syncStoryComments (cfg : SyncConfig) (env : SyncEnv) (pid : Int)
    (now : String) (acc : DBState × Nat) (s : Story) : DBState × Nat :=
  match env.getComments s.id with
  | .error _ => acc
  | .ok cs => cs.foldl (syncComment cfg pid s.id now) acc

/-- `syncProject` from sync.go. -/
def syncProject (cfg : SyncConfig) (env : SyncEnv) (pid : Int) (db : DBState)
    (now : String) : DBState × SyncStatsM :=
  let allStories := gatherStories env
  let myStoryIDs := ((allStories.filter (isMyStory cfg)).map Story.id).dedup
  let p1 := allStories.foldl (syncStoryPhase cfg pid now myStoryIDs) (db, 0)
  let p2 := allStories.foldl (syncStoryComments cfg env pid now) (p1.1, 0)
  (p2.1, { stories := p1.2, mine := myStoryIDs.length, comments := p2.2 })

/-- A story row with `mentions_me` set, as seen through the store. -/
def storyTrue (db : DBState) (id : Int) : Prop :=
  ∃ r, findStory db.stories id = some r ∧ r.mentionsMe = true

/-- A comment row with `mentions_me` set, as seen through the store. -/
def commentTrue (db : DBState) (id : Int) : Prop :=
  ∃ r, findComment db.comments id = some r ∧ r.mentionsMe = true

/-- A story row present in the store. -/
def storyExists (db : DBState) (id : Int) : Prop :=
  ∃ r, findStory db.stories id = some r

theorem foldl_preserve {α β : Type} (P : α → Prop) (f : α → β → α)
    (hf : ∀ a b, P a → P (f a b)) :
    ∀ (l : List β) (a : α), P a → P (l.foldl f a) := by
  intro l
  induction l with
  | nil => intro a h; exact h
  | cons b t ih => intro a h; exact ih (f a b) (hf a b h)

end LiteTracker

namespace LiteTracker

/-! ### Preservation of store facts across the sync loops -/

theorem syncStoryPhase_pres_exists (cfg : SyncConfig) (pid : Int) (now : String)
    (myIds : List Int) (acc : DBState × Nat) (s : Story) (id : Int)
    (h : storyExists acc.1 id) :
    storyExists (syncStoryPhase cfg pid now myIds acc s).1 id := by
  obtain ⟨r, hr⟩ := h
  exact upsertStory_preserves_exists acc.1.stories
    (storyRowOf pid (myIds.contains s.id) s) now id r hr

theorem syncComment_pres_storyTrue (cfg : SyncConfig) (pid sid : Int)
    (now : String) (acc : DBState × Nat) (c : ApiComment) (id : Int)
    (h : storyTrue acc.1 id) :
    storyTrue (syncComment cfg pid sid now acc c).1 id := by
  obtain ⟨r, hr, hm⟩ := h
  unfold syncComment
  dsimp only
  by_cases hmen : mentionsUser cfg c.text = true
  · rw [if_pos hmen]
    exact mark_preserves_mention acc.1.stories sid id r hr hm
  · rw [if_neg hmen]
    exact ⟨r, hr, hm⟩

theorem syncComment_pres_commentTrue (cfg : SyncConfig) (pid sid : Int)
    (now : String) (acc : DBState × Nat) (c : ApiComment) (id : Int)
    (h : commentTrue acc.1 id) :
    commentTrue (syncComment cfg pid sid now acc c).1 id := by
  obtain ⟨r, hr, hm⟩ := h
  unfold syncComment
  dsimp only
  by_cases hmen : mentionsUser cfg c.text = true
  · rw [if_pos hmen]
    exact upsertComment_preserves_mention acc.1.comments
      (commentRowOf pid sid (mentionsUser cfg c.text) c) now id r hr hm
  · rw [if_neg hmen]
    exact upsertComment_preserves_mention acc.1.comments
      (commentRowOf pid sid (mentionsUser cfg c.text) c) now id r hr hm

theorem syncComment_pres_storyExists (cfg : SyncConfig) (pid sid : Int)
    (now : String) (acc : DBState × Nat) (c : ApiComment) (id : Int)
    (h : storyExists acc.1 id) :
    storyExists (syncComment cfg pid sid now acc c).1 id := by
  obtain ⟨r, hr⟩ := h
  unfold syncComment
  dsimp only
  by_cases hmen : mentionsUser cfg c.text = true
  · rw [if_pos hmen]
    exact mark_preserves_exists acc.1.stories sid id r hr
  · rw [if_neg hmen]
    exact ⟨r, hr⟩

theorem syncStoryComments_pres_storyTrue (cfg : SyncConfig) (env : SyncEnv)
    (pid : Int) (now : String) (acc : DBState × Nat) (s : Story) (id : Int)
    (h : storyTrue acc.1 id) :
    storyTrue (syncStoryComments cfg env pid now acc s).1 id := by
  unfold syncStoryComments
  rcases hg : env.getComments s.id with e | cs
  · exact h
  · exact foldl_preserve (fun a => storyTrue a.1 id) (syncComment cfg pid s.id now)
      (fun a b hb => syncComment_pres_storyTrue cfg pid s.id now a b id hb) cs acc h

theorem syncStoryComments_pres_commentTrue (cfg : SyncConfig) (env : SyncEnv)
    (pid : Int) (now : String) (acc : DBState × Nat) (s : Story) (id : Int)
    (h : commentTrue acc.1 id) :
    commentTrue (syncStoryComments cfg env pid now acc s).1 id := by
  unfold syncStoryComments
  rcases hg : env.getComments s.id with e | cs
  · exact h
  · exact foldl_preserve (fun a => commentTrue a.1 id) (syncComment cfg pid s.id now)
      (fun a b hb => syncComment_pres_commentTrue cfg pid s.id now a b id hb) cs acc h

theorem syncStoryComments_pres_storyExists (cfg : SyncConfig) (env : SyncEnv)
    (pid : Int) (now : String) (acc : DBState × Nat) (s : Story) (id : Int)
    (h : storyExists acc.1 id) :
    storyExists (syncStoryComments cfg env pid now acc s).1 id := by
  unfold syncStoryComments
  rcases hg : env.getComments s.id with e | cs
  · exact h
  · exact foldl_preserve (fun a => storyExists a.1 id) (syncComment cfg pid s.id now)
      (fun a b hb => syncComment_pres_storyExists cfg pid s.id now a b id hb) cs acc h

end LiteTracker

namespace LiteTracker

/-! ### Effects of the sync loops -/

/-- Processing a mentioning comment of story `sid` (present in the store)
marks both the comment row and the story row. -/
theorem syncComment_effect (cfg : SyncConfig) (pid sid : Int) (now : String)
    (acc : DBState × Nat) (c : ApiComment)
    (hm : mentionsUser cfg c.text = true) (hs : storyExists acc.1 sid) :
    storyTrue (syncComment cfg pid sid now acc c).1 sid ∧
    commentTrue (syncComment cfg pid sid now acc c).1 c.id := by
  obtain ⟨r, hr⟩ := hs
  unfold syncComment
  dsimp only
  rw [if_pos hm]
  constructor
  · exact mark_sets_mention acc.1.stories sid r hr
  · obtain ⟨r', h1, h2⟩ := upsertComment_sets_mention acc.1.comments
      (commentRowOf pid sid (mentionsUser cfg c.text) c) now hm
    exact ⟨r', h1, h2⟩

/-- Within one story's comment loop, a mentioning comment ends with both rows
marked, provided the story row is in the store when the loop starts. -/
theorem comments_fold_effect (cfg : SyncConfig) (pid sid : Int) (now : String) :
    ∀ (cs : List ApiComment) (acc : DBState × Nat) (c : ApiComment), c ∈ cs →
      mentionsUser cfg c.text = true → storyExists acc.1 sid →
      storyTrue (cs.foldl (syncComment cfg pid sid now) acc).1 sid ∧
      commentTrue (cs.foldl (syncComment cfg pid sid now) acc).1 c.id := by
  intro cs
  induction cs with
  | nil => intro acc c hc; cases hc
  | cons x t ih =>
    intro acc c hc hm hex
    rw [List.foldl_cons]
    rcases List.mem_cons.mp hc with heq | hmem
    · subst heq
      have hstep := syncComment_effect cfg pid sid now acc c hm hex
      constructor
      · exact foldl_preserve (fun a => storyTrue a.1 sid) _
          (fun a b hb => syncComment_pres_storyTrue cfg pid sid now a b sid hb)
          t _ hstep.1
      · exact foldl_preserve (fun a => commentTrue a.1 c.id) _
          (fun a b hb => syncComment_pres_commentTrue cfg pid sid now a b c.id hb)
          t _ hstep.2
    · exact ih (syncComment cfg pid sid now acc x) c hmem hm
        (syncComment_pres_storyExists cfg pid sid now acc x sid hex)

/-- Across the whole comment phase, a mentioning comment on any story of the
candidate list ends with both rows marked. -/
theorem phase2_effect (cfg : SyncConfig) (env : SyncEnv) (pid : Int)
    (now : String) :
    ∀ (l : List Story) (acc : DBState × Nat) (s : Story) (cs : List ApiComment)
      (c : ApiComment), s ∈ l → env.getComments s.id = Except.ok cs → c ∈ cs →
      mentionsUser cfg c.text = true → storyExists acc.1 s.id →
      storyTrue (l.foldl (syncStoryComments cfg env pid now) acc).1 s.id ∧
      commentTrue (l.foldl (syncStoryComments cfg env pid now) acc).1 c.id := by
  intro l
  induction l with
  | nil => intro acc s cs c hs; cases hs
  | cons x t ih =>
    intro acc s cs c hs hcs hc hm hex
    rw [List.foldl_cons]
    rcases List.mem_cons.mp hs with heq | hmem
    · subst heq
      have hstep : storyTrue (syncStoryComments cfg env pid now acc s).1 s.id ∧
          commentTrue (syncStoryComments cfg env pid now acc s).1 c.id := by
        unfold syncStoryComments
        rw [hcs]
        exact comments_fold_effect cfg pid s.id now cs acc c hc hm hex
      constructor
      · exact foldl_preserve (fun a => storyTrue a.1 s.id) _
          (fun a b hb => syncStoryComments_pres_storyTrue cfg env pid now a b s.id hb)
          t _ hstep.1
      · exact foldl_preserve (fun a => commentTrue a.1 c.id) _
          (fun a b hb => syncStoryComments_pres_commentTrue cfg env pid now a b c.id hb)
          t _ hstep.2
    · exact ih (syncStoryComments cfg env pid now acc x) s cs c hmem hcs hc hm
        (syncStoryComments_pres_storyExists cfg env pid now acc x s.id hex)

/-- After the story-upsert phase, every candidate story has a row. -/
theorem phase1_exists (cfg : SyncConfig) (pid : Int) (now : String)
    (myIds : List Int) :
    ∀ (l : List Story) (acc : DBState × Nat) (s : Story), s ∈ l →
      storyExists (l.foldl (syncStoryPhase cfg pid now myIds) acc).1 s.id := by
  intro l
  induction l with
  | nil => intro acc s hs; cases hs
  | cons x t ih =>
    intro acc s hs
    rw [List.foldl_cons]
    rcases List.mem_cons.mp hs with heq | hmem
    · subst heq
      refine foldl_preserve (fun a => storyExists a.1 s.id) _
        (fun a b hb => syncStoryPhase_pres_exists cfg pid now myIds a b s.id hb)
        t _ ?_
      exact upsertStory_exists_self acc.1.stories
        (storyRowOf pid (myIds.contains s.id) s) now
    · exact ih (syncStoryPhase cfg pid now myIds acc x) s hmem

/-- The story-upsert phase increments the story counter once per story. -/
theorem phase1_count (cfg : SyncConfig) (pid : Int) (now : String)
    (myIds : List Int) :
    ∀ (l : List Story) (acc : DBState × Nat),
      (l.foldl (syncStoryPhase cfg pid now myIds) acc).2 = acc.2 + l.length := by
  intro l
  induction l with
  | nil => intro acc; simp
  | cons x t ih =>
    intro acc
    rw [List.foldl_cons, ih]
    simp only [syncStoryPhase, List.length_cons]
    omega

/-- A mentioning comment on any fetched story ends, after `syncProject`, with
the comment row and the owning story row both carrying `mentions_me = true`. -/
theorem syncProject_mention_effect (cfg : SyncConfig) (env : SyncEnv)
    (pid : Int) (db : DBState) (now : String) (s : Story)
    (cs : List ApiComment) (c : ApiComment)
    (hs : s ∈ gatherStories env) (hcs : env.getComments s.id = Except.ok cs)
    (hc : c ∈ cs) (hm : mentionsUser cfg c.text = true) :
    storyTrue (syncProject cfg env pid db now).1 s.id ∧
    commentTrue (syncProject cfg env pid db now).1 c.id := by
  unfold syncProject
  dsimp only
  refine phase2_effect cfg env pid now (gatherStories env) _ s cs c hs hcs hc hm ?_
  exact phase1_exists cfg pid now _ (gatherStories env) (db, 0) s hs

end LiteTracker

namespace LiteTracker

/-! ### From case-insensitive containment to `mentionsUser` -/

theorem ciSubstring_text_ne (u text : String) (hu : ¬ u = "")
    (h : ciSubstring u text) : ¬ text = "" := by
  intro he
  rw [he] at h
  obtain ⟨a, b, hab⟩ := h
  have hab' : a ++ u.toList.map foldCaseChar ++ b = ([] : List Char) := hab
  obtain ⟨h1, h2⟩ := List.append_eq_nil.mp hab'
  obtain ⟨h3, h4⟩ := List.append_eq_nil.mp h1
  have h5 : u.toList = [] := by simpa using h4
  apply hu
  have hue : u = u.toList.asString := rfl
  rw [hue, h5]
  rfl

theorem ciSubstring_at_text_ne (u text : String)
    (h : ciSubstring ("@" ++ u) text) : ¬ text = "" := by
  intro he
  rw [he] at h
  obtain ⟨a, b, hab⟩ := h
  have hab' : a ++ ("@" ++ u).toList.map foldCaseChar ++ b = ([] : List Char) := hab
  obtain ⟨h1, h2⟩ := List.append_eq_nil.mp hab'
  obtain ⟨h3, h4⟩ := List.append_eq_nil.mp h1
  have h6 : ('@' :: u.toList).map foldCaseChar = [] := h4
  simp at h6

theorem mentionsUser_of_ci (cfg : SyncConfig) (text : String)
    (hne : ¬ text = "")
    (h : ciSubstring cfg.username text ∨ ciSubstring ("@" ++ cfg.username) text) :
    mentionsUser cfg text = true := by
  unfold mentionsUser
  rw [if_neg hne]
  rcases h with h | h
  · have hx : strContains (toLowerStr text) (toLowerStr cfg.username) = true :=
      (strContains_iff (toLowerStr text) (toLowerStr cfg.username)).mpr h
    rw [hx, Bool.true_or]
  · have hx : strContains (toLowerStr text) ("@" ++ toLowerStr cfg.username) = true :=
      (strContains_iff (toLowerStr text) ("@" ++ toLowerStr cfg.username)).mpr h
    rw [hx, Bool.or_true]

/-- **C9.** For a project whose fetched state lists contain exactly two
distinct stories, one owned by the configured user id and one not,
`syncProject` returns stats with `stories = 2` and `mine = 1`; and every
comment on the user's own story containing the configured (non-empty)
username as a case-insensitive substring, bare or `"@"`-prefixed, ends with
both that comment's and the owning story's `mentions_me` set to true. -/
theorem c9_sync_end_to_end (cfg : SyncConfig) (env : SyncEnv) (pid : Int)
    (db : DBState) (now : String) (s1 s2 : Story)
    (hall : gatherStories env = [s1, s2])
    (hids : ¬ s1.id = s2.id)
    (hmine : isMyStory cfg s1 = true)
    (hnot : isMyStory cfg s2 = false)
    (hu : ¬ cfg.username = "") :
    (syncProject cfg env pid db now).2.stories = 2 ∧
    (syncProject cfg env pid db now).2.mine = 1 ∧
    ∀ cs c, env.getComments s1.id = Except.ok cs → c ∈ cs →
      (ciSubstring cfg.username c.text ∨ ciSubstring ("@" ++ cfg.username) c.text) →
      storyTrue (syncProject cfg env pid db now).1 s1.id ∧
      commentTrue (syncProject cfg env pid db now).1 c.id := by
  refine ⟨?_, ?_, ?_⟩
  · unfold syncProject
    dsimp only
    rw [hall, phase1_count]
    rfl
  · unfold syncProject
    dsimp only
    rw [hall]
    have hfilter : List.filter (isMyStory cfg) [s1, s2] = [s1] := by
      simp [List.filter, hmine, hnot]
    rw [hfilter]
    rw [show ([s1].map Story.id) = [s1.id] from rfl]
    rw [List.dedup_cons_of_not_mem (List.not_mem_nil s1.id), List.dedup_nil]
    rfl
  · intro cs c hcs hc hci
    have hne : ¬ c.text = "" := by
      rcases hci with h | h
      · exact ciSubstring_text_ne cfg.username c.text hu h
      · exact ciSubstring_at_text_ne cfg.username c.text h
    have hm : mentionsUser cfg c.text = true := mentionsUser_of_ci cfg c.text hne hci
    exact syncProject_mention_effect cfg env pid db now s1 cs c
      (by rw [hall]; exact List.mem_cons_self s1 [s2]) hcs hc hm

def c9Cfg : SyncConfig := { userId := 7, username := "alice" }

def c9Story1 : Story :=
  { id := 101, title := "Fix login", description := "", storyType := "feature",
    currentState := "started", estimate := some 2, storyPriority := "",
    labelNames := ["bug"],
    owners := [{ id := 1, userId := 7, name := "Alice", initials := "A" }],
    requestedById := some 7, url := "", createdAt := "2026-01-01",
    updatedAt := "2026-01-02" }

def c9Story2 : Story :=
  { id := 102, title := "Write docs", description := "", storyType := "chore",
    currentState := "unstarted", estimate := none, storyPriority := "",
    labelNames := [], owners := [], requestedById := none, url := "",
    createdAt := "2026-01-01", updatedAt := "2026-01-02" }

def c9Comment : ApiComment :=
  { id := 501, text := "hey @alice can you check this", personId := 9,
    personName := some "Bob", createdAt := "2026-01-03" }

def c9Env : SyncEnv :=
  { listStories := fun st =>
      if st = "started" then Except.ok [c9Story1]
      else if st = "unstarted" then Except.ok [c9Story2]
      else Except.ok []
    getComments := fun sid =>
      if sid = 101 then Except.ok [c9Comment] else Except.ok [] }

theorem c9_sync_end_to_end_witness :
    gatherStories c9Env = [c9Story1, c9Story2] ∧
    isMyStory c9Cfg c9Story1 = true ∧ isMyStory c9Cfg c9Story2 = false ∧
    (syncProject c9Cfg c9Env 55 ⟨[], []⟩ "2026-02-01").2.stories = 2 ∧
    (syncProject c9Cfg c9Env 55 ⟨[], []⟩ "2026-02-01").2.mine = 1 ∧
    storyTrue (syncProject c9Cfg c9Env 55 ⟨[], []⟩ "2026-02-01").1 101 ∧
    commentTrue (syncProject c9Cfg c9Env 55 ⟨[], []⟩ "2026-02-01").1 501 := by
  have h := c9_sync_end_to_end c9Cfg c9Env 55 ⟨[], []⟩ "2026-02-01" c9Story1 c9Story2
    rfl (by decide) rfl rfl (by decide)
  have h3 := h.2.2 [c9Comment] c9Comment rfl (List.mem_cons_self c9Comment [])
    (Or.inl (by decide))
  exact ⟨rfl, rfl, rfl, h.1, h.2.1, h3.1, h3.2⟩

end LiteTracker

namespace LiteTracker

/-! ### Claim C10: the empty configured username matches everything -/

theorem scanBy_nil_sub (f : Char → Char) : ∀ l : List Char, scanBy f l [] = true := by
  intro l
  cases l <;> rfl

theorem mentionsUser_empty_username (cfg : SyncConfig) (text : String)
    (hu : cfg.username = "") (hne : ¬ text = "") : mentionsUser cfg text = true := by
  unfold mentionsUser
  rw [if_neg hne, hu]
  have hx : strContains (toLowerStr text) (toLowerStr "") = true :=
    scanBy_nil_sub id (toLowerStr text).toList
  rw [hx, Bool.true_or]

/-- **C10.** With an empty configured username: `containsIgnoreCase` accepts
every haystack; every polled activity with a non-empty message is treated as
mentioning the user and fires a notification; `mentionsUser` accepts every
non-empty comment text; and every fetched comment with non-empty text ends up
stored with `mentions_me = true` after `syncProject`. -/
theorem c10_empty_username :
    (∀ s : String, containsIgnoreCase s "" = true) ∧
    (∀ (acts : List ActivityM) (a : ActivityM), a ∈ acts → ¬ a.message = "" →
      activityMentions "" a = true ∧ notifyOf a ∈ pollProject "" acts) ∧
    (∀ (cfg : SyncConfig) (text : String), cfg.username = "" → ¬ text = "" →
      mentionsUser cfg text = true) ∧
    (∀ (cfg : SyncConfig) (env : SyncEnv) (pid : Int) (db : DBState)
      (now : String) (s : Story) (cs : List ApiComment) (c : ApiComment),
      cfg.username = "" → s ∈ gatherStories env →
      env.getComments s.id = Except.ok cs → c ∈ cs → ¬ c.text = "" →
      commentTrue (syncProject cfg env pid db now).1 c.id) := by
  refine ⟨?_, ?_, ?_, ?_⟩
  · intro s
    exact scanBy_nil_sub foldCaseChar s.toList
  · intro acts a ha hmsg
    have hmen : activityMentions "" a = true := by
      unfold activityMentions
      dsimp only
      rw [if_pos hmsg]
      have hc : containsIgnoreCase a.message "" = true :=
        scanBy_nil_sub foldCaseChar a.message.toList
      rw [hc]
      rfl
    refine ⟨hmen, ?_⟩
    have hf : activityFires "" a = true := by
      unfold activityFires
      rw [hmen, Bool.true_or]
    exact List.mem_map_of_mem notifyOf (List.mem_filter.mpr ⟨ha, hf⟩)
  · intro cfg text hu hne
    exact mentionsUser_empty_username cfg text hu hne
  · intro cfg env pid db now s cs c hu hs hcs hc hne
    exact (syncProject_mention_effect cfg env pid db now s cs c hs hcs hc
      (mentionsUser_empty_username cfg c.text hu hne)).2

def c10Act : ActivityM :=
  { kind := "story_update_activity", message := "state changed to started",
    performedByName := "Bob", primaryResourceNames := ["Proj"], changes := [] }

def c10Cfg : SyncConfig := { userId := 7, username := "" }

def c10Story : Story :=
  { id := 201, title := "Refactor", description := "", storyType := "chore",
    currentState := "started", estimate := none, storyPriority := "",
    labelNames := [], owners := [], requestedById := none, url := "",
    createdAt := "2026-01-01", updatedAt := "2026-01-02" }

def c10Comment : ApiComment :=
  { id := 601, text := "looks good to me", personId := 0,
    personName := none, createdAt := "2026-01-03" }

def c10Env : SyncEnv :=
  { listStories := fun st =>
      if st = "started" then Except.ok [c10Story] else Except.ok []
    getComments := fun _ => Except.ok [c10Comment] }

theorem c10_empty_username_witness :
    containsIgnoreCase "HeLLo world" "" = true ∧
    activityMentions "" c10Act = true ∧
    notifyOf c10Act ∈ pollProject "" [c10Act] ∧
    mentionsUser c10Cfg "looks good to me" = true ∧
    commentTrue (syncProject c10Cfg c10Env 9 ⟨[], []⟩ "2026-02-01").1 601 := by
  have h := c10_empty_username
  have h2 := h.2.1 [c10Act] c10Act (List.mem_cons_self c10Act []) (by decide)
  refine ⟨h.1 "HeLLo world", h2.1, h2.2, ?_, ?_⟩
  · exact h.2.2.1 c10Cfg "looks good to me" rfl (by decide)
  · exact h.2.2.2 c10Cfg c10Env 9 ⟨[], []⟩ "2026-02-01" c10Story [c10Comment]
      c10Comment rfl (List.mem_cons_self c10Story []) rfl
      (List.mem_cons_self c10Comment []) (by decide)

end LiteTracker
